import Mathlib

/-!
Shallow embedding of the Teakra DSP interpreter core (`src/interpreter.h`),
covering the register file, 40-bit accumulator arithmetic and saturation,
the single-instruction repeat and block-repeat machinery, interrupt
acceptance in `Run`, the address-generation step (`StepAddress`), and a
representative subset of instruction handlers.  Machine integers are
modelled as `Nat` with explicit masking / `% 2^w` where the C++ code relies
on fixed-width wraparound.  Fatal `throw`s are modelled with `Except`.
-/

namespace Teakra

/-- `SignExtend<n, T>(v)` from the source (`T` of bit width `w`): the low
`n` bits of `v`, sign-extended to width `w`. -/
def SignExtend (w n v : Nat) : Nat :=
  if 2 ^ (n - 1) ≤ v % 2 ^ n then v % 2 ^ n + (2 ^ w - 2 ^ n) else v % 2 ^ n

/-- A block-repeat stack frame (`start`, `end`, `lc`); `end` is spelled
`end_` because `end` is reserved. -/
structure BkrepFrame where
  start : Nat
  end_ : Nat
  lc : Nat
  deriving DecidableEq, Repr

/-- Modelled from the spec: `register.h` is not under `src/`.  The shadow
bank mirrors the flag registers; `ShadowStore` snapshots them and
`ShadowSwap` exchanges the live flags with the bank (§4.1 of the spec:
"save a shadow copy of the RF, swap the live/shadow banks"). -/
structure Shadow where
  sfz : Bool
  sfm : Bool
  sfn : Bool
  sfe : Bool
  sfv : Bool
  sflv : Bool
  sfc0 : Bool
  sfc1 : Bool
  sfr : Bool
  sfls : Bool
  deriving DecidableEq, Repr

/-- The register file (`RegisterState`) together with the data memory seen
through the memory interface.  Accumulators are u64 storage; `pc` is u32
storage holding an 18-bit counter; 16-bit registers are kept `< 2^16` by
the operations that write them. -/
structure State where
  a0 : Nat
  a1 : Nat
  b0 : Nat
  b1 : Nat
  r : Nat → Nat
  x0 : Nat
  x1 : Nat
  y0 : Nat
  y1 : Nat
  p0 : Nat
  p1 : Nat
  psign0 : Nat
  psign1 : Nat
  ps0 : Nat
  ps1 : Nat
  ym : Nat
  stepi : Nat
  stepj : Nat
  stepi0 : Nat
  stepj0 : Nat
  modi : Nat
  modj : Nat
  legacy_mod : Bool
  bankstep : Nat
  brv : Nat → Bool
  m : Nat → Bool
  r3z : Bool
  r7z : Bool
  pc : Nat
  sp : Nat
  pc_endian : Nat
  rep : Bool
  repc : Nat
  lp : Bool
  bcn : Nat
  bkrep_stack : Nat → BkrepFrame
  ie : Bool
  im : Nat → Bool
  ip : Nat → Bool
  ic : Nat → Bool
  vim : Bool
  vip : Bool
  vic : Bool
  viaddr : Nat
  fz : Bool
  fm : Bool
  fn : Bool
  fe : Bool
  fv : Bool
  flv : Bool
  fc0 : Bool
  fc1 : Bool
  fr : Bool
  fls : Bool
  sar0 : Bool
  sar1 : Bool
  shadow : Shadow
  dataMem : Nat → Nat

/-- `regs.sar[storing]` (`storing` as array index: `false ↦ 0`, `true ↦ 1`). -/
def State.sar (s : State) (storing : Bool) : Bool :=
  if storing then s.sar1 else s.sar0

/-- A state with every register zero / false and empty memory; used as a
base point for concrete executions. -/
def blankState : State where
  a0 := 0
  a1 := 0
  b0 := 0
  b1 := 0
  r := fun _ => 0
  x0 := 0
  x1 := 0
  y0 := 0
  y1 := 0
  p0 := 0
  p1 := 0
  psign0 := 0
  psign1 := 0
  ps0 := 0
  ps1 := 0
  ym := 0
  stepi := 0
  stepj := 0
  stepi0 := 0
  stepj0 := 0
  modi := 0
  modj := 0
  legacy_mod := false
  bankstep := 0
  brv := fun _ => false
  m := fun _ => false
  r3z := false
  r7z := false
  pc := 0
  sp := 0
  pc_endian := 0
  rep := false
  repc := 0
  lp := false
  bcn := 0
  bkrep_stack := fun _ => ⟨0, 0, 0⟩
  ie := false
  im := fun _ => false
  ip := fun _ => false
  ic := fun _ => false
  vim := false
  vip := false
  vic := false
  viaddr := 0
  fz := false
  fm := false
  fn := false
  fe := false
  fv := false
  flv := false
  fc0 := false
  fc1 := false
  fr := false
  fls := false
  sar0 := false
  sar1 := false
  shadow := ⟨false, false, false, false, false, false, false, false, false, false⟩
  dataMem := fun _ => 0

/-- The fatal conditions the interpreter `throw`s. -/
inductive Fatal where
  | pcOverflow
  | undefinedInstruction
  | loopStackOverflow
  | notInLoop
  | accCheck
  deriving DecidableEq, Repr

/-- The four full accumulators. -/
inductive Acc where
  | a0
  | a1
  | b0
  | b1
  deriving DecidableEq, Repr

/-- The `Ax` operand class (`a0` or `a1`). -/
inductive Ax where
  | a0
  | a1
  deriving DecidableEq, Repr

/-- The accumulator named by an `Ax` operand. -/
def Ax.acc : Ax → Acc
  | .a0 => .a0
  | .a1 => .a1

/-- The `Axl` operand class (`a0l` or `a1l`). -/
inductive Axl where
  | a0l
  | a1l
  deriving DecidableEq, Repr

/-- The accumulator an `Axl` operand belongs to. -/
def Axl.acc : Axl → Acc
  | .a0l => .a0
  | .a1l => .a1

/-- The `AlmOp` operation selector. -/
inductive AlmOp where
  | Or
  | And
  | Xor
  | Tst0
  | Tst1
  | Cmp
  | Cmpu
  | Sub
  | Subl
  | Subh
  | Add
  | Addl
  | Addh
  | Msu
  | Sqra
  | Sqr
  deriving DecidableEq, Repr

/-- Modelled from the spec: `register.h` (`ConditionPass`) is not under
`src/`; condition evaluation is RF-resident (§4.1).  Only the
always-true condition is modelled. -/
inductive Cond where
  | always
  deriving DecidableEq, Repr

/-- Modelled from the spec: `ConditionPass` for the always-true condition. -/
def conditionPass (c : Cond) (_ : State) : Bool :=
  match c with
  | .always => true

/-- The `StepValue` step encodings of the AGU. -/
inductive StepValue where
  | Zero
  | Increase
  | Decrease
  | Increase2Mode1
  | Decrease2Mode1
  | Increase2Mode2
  | Decrease2Mode2
  | PlusStep
  deriving DecidableEq, Repr

/-- `GetAcc` restricted to the full accumulator names. -/
def GetAcc (name : Acc) (s : State) : Nat :=
  match name with
  | .a0 => s.a0
  | .a1 => s.a1
  | .b0 => s.b0
  | .b1 => s.b1

/-- `SetAcc_Simple`: raw accumulator store, no flags, no saturation. -/
def SetAcc_Simple (name : Acc) (value : Nat) (s : State) : State :=
  match name with
  | .a0 => {s with a0 := value}
  | .a1 => {s with a1 := value}
  | .b0 => {s with b0 := value}
  | .b1 => {s with b1 := value}

/-- The flag recipe of `SetAccFlag`, as a total state update (the
value-is-sign-extended check of the source is in `SetAccFlag` below). -/
def applyAccFlag (value : Nat) (s : State) : State :=
  let fz := value == 0
  let fe := value != SignExtend 64 32 value
  let bit31 := (value >>> 31) &&& 1
  let bit30 := (value >>> 30) &&& 1
  {s with
    fz := fz
    fm := (value >>> 39) != 0
    fe := fe
    fn := fz || (!fe && (bit31 ^^^ bit30) != 0)}

/-- `SetAccFlag(value)`: `throw` if the value is not 40-bit sign-extended
(`"remove this check later"`), else update the Z/M/E/N flags. -/
def SetAccFlag (value : Nat) (s : State) : Except Fatal State :=
  if value ≠ SignExtend 64 40 value then .error .accCheck
  else .ok (applyAccFlag value s)

/-- `SaturateAcc_Unconditional`: clamp a value that does not fit in
signed 32 bits and latch `fls`; leave it (and `fls`) alone otherwise. -/
def SaturateAcc_Unconditional (value : Nat) (s : State) : Nat × State :=
  if value ≠ SignExtend 64 32 value then
    (if (value >>> 39) ≠ 0 then 0xFFFFFFFF80000000 else 0x000000007FFFFFFF,
      {s with fls := true})
  else (value, s)

/-- `SaturateAcc(value, storing)`: saturate unless `sar[storing]` is set. -/
def SaturateAcc (value : Nat) (storing : Bool) (s : State) : Nat × State :=
  if !(s.sar storing) then SaturateAcc_Unconditional value s
  else (value, s)

/-- `SetAcc(name, value, no_saturation)`: flag update, optional
write-path saturation, then the raw store. -/
def SetAcc (name : Acc) (value : Nat) (no_saturation : Bool) (s : State) :
    Except Fatal State := do
  let s ← SetAccFlag value s
  let (value, s) := if !no_saturation then SaturateAcc value true s else (value, s)
  .ok (SetAcc_Simple name value s)

/-- `SetAcc_NoSaturation`. -/
def SetAcc_NoSaturation (name : Acc) (value : Nat) (s : State) : Except Fatal State :=
  SetAcc name value true s

/-- `regs.x[unit]` / `regs.y[unit]` / `regs.p[unit]` / `regs.psign[unit]` /
`regs.ps[unit]` accessors (`unit ∈ {0, 1}`). -/
def State.xu (s : State) (unit : Nat) : Nat := if unit = 0 then s.x0 else s.x1

/-- See `State.xu`. -/
def State.yu (s : State) (unit : Nat) : Nat := if unit = 0 then s.y0 else s.y1

/-- See `State.xu`. -/
def State.pu (s : State) (unit : Nat) : Nat := if unit = 0 then s.p0 else s.p1

/-- See `State.xu`. -/
def State.psignu (s : State) (unit : Nat) : Nat :=
  if unit = 0 then s.psign0 else s.psign1

/-- See `State.xu`. -/
def State.psu (s : State) (unit : Nat) : Nat := if unit = 0 then s.ps0 else s.ps1

/-- Pointwise store into `regs.p[unit]`. -/
def setP (unit value : Nat) (s : State) : State :=
  if unit = 0 then {s with p0 := value} else {s with p1 := value}

/-- Pointwise store into `regs.psign[unit]`. -/
def setPsign (unit value : Nat) (s : State) : State :=
  if unit = 0 then {s with psign0 := value} else {s with psign1 := value}

/-- `DoMultiplication(unit, x_sign, y_sign)`: 16×16→32 multiply with the
`ym` half-word masking and the product sign bit. -/
def DoMultiplication (unit : Nat) (x_sign y_sign : Bool) (s : State) : State :=
  let x := s.xu unit
  let y := s.yu unit
  let y := if s.ym = 1 || (s.ym = 3 && unit = 0) then y >>> 8
           else if s.ym = 2 || (s.ym = 3 && unit = 1) then y &&& 0xFF
           else y
  let x := if x_sign then SignExtend 32 16 x else x
  let y := if y_sign then SignExtend 32 16 y else y
  let p := (x * y) % 2 ^ 32
  let psign := if x_sign || y_sign then p >>> 31 else 0
  setP unit p (setPsign unit psign s)

/-- `ProductToBus40` for product `unit`: 33-bit product (`p | psign << 32`)
projected through the `ps[unit]` shifter onto the 40-bit bus. -/
def ProductToBus40 (unit : Nat) (s : State) : Nat :=
  let value := s.pu unit ||| (s.psignu unit <<< 32)
  match s.psu unit with
  | 0 => SignExtend 64 33 value
  | 1 => SignExtend 64 32 (value >>> 1)
  | 2 => SignExtend 64 34 ((value <<< 1) % 2 ^ 64)
  | 3 => SignExtend 64 35 ((value <<< 2) % 2 ^ 64)
  | _ => value

/-- `AddSub(a, b, sub)`: 40-bit masked add/subtract on the u64 bus, with
carry (`fc[0]`), overflow (`fv`) and latched overflow (`flv`) updates;
returns the 40-bit sign-extended result. -/
def AddSub (a b : Nat) (sub : Bool) (s : State) : Nat × State :=
  let a := a &&& 0xFFFFFFFFFF
  let b := b &&& 0xFFFFFFFFFF
  let result := if sub then (a + (2 ^ 64 - b)) % 2 ^ 64 else (a + b) % 2 ^ 64
  let fc0 := (result >>> 40) &&& 1 == 1
  let b := if sub then b ^^^ (2 ^ 64 - 1) else b
  let fv := ((((a ^^^ b) ^^^ (2 ^ 64 - 1)) &&& (a ^^^ result)) >>> 39) &&& 1 == 1
  (SignExtend 64 40 result,
    {s with fc0 := fc0, fv := fv, flv := if fv then true else s.flv})

/-- `AlmGeneric(op, a, b)`: the shared ALM/ALU operation body.  `a` is the
already-extended 40-bit operand, `b` the target accumulator. -/
def AlmGeneric (op : AlmOp) (a : Nat) (b : Ax) (s : State) : Except Fatal State :=
  match op with
  | .Or =>
      let value := SignExtend 64 40 (GetAcc b.acc s ||| a)
      SetAcc_NoSaturation b.acc value s
  | .And =>
      let value := SignExtend 64 40 (GetAcc b.acc s &&& a)
      SetAcc_NoSaturation b.acc value s
  | .Xor =>
      let value := SignExtend 64 40 (GetAcc b.acc s ^^^ a)
      SetAcc_NoSaturation b.acc value s
  | .Tst0 =>
      let value := GetAcc b.acc s &&& 0xFFFF
      .ok {s with fz := value &&& a == 0}
  | .Tst1 =>
      let value := GetAcc b.acc s &&& 0xFFFF
      .ok {s with fz := value &&& (a ^^^ (2 ^ 64 - 1)) == 0}
  | .Cmp | .Cmpu | .Sub | .Subl | .Subh | .Add | .Addl | .Addh =>
      let value := GetAcc b.acc s
      let sub := !(op = .Add || op = .Addl || op = .Addh : Bool)
      let (result, s) := AddSub value a sub s
      if op = .Cmp ∨ op = .Cmpu then SetAccFlag result s
      else SetAcc b.acc result false s
  | .Msu => do
      let value := GetAcc b.acc s
      let product := ProductToBus40 0 s
      let (result, s) := AddSub value product true s
      let s ← SetAcc b.acc result false s
      let s := {s with x0 := a &&& 0xFFFF}
      .ok (DoMultiplication 0 true true s)
  | .Sqra => do
      let value := GetAcc b.acc s
      let product := ProductToBus40 0 s
      let (result, s) := AddSub value product false s
      let s ← SetAcc b.acc result false s
      let s := {s with y0 := a &&& 0xFFFF, x0 := a &&& 0xFFFF}
      .ok (DoMultiplication 0 true true s)
  | .Sqr =>
      let s := {s with y0 := a &&& 0xFFFF, x0 := a &&& 0xFFFF}
      .ok (DoMultiplication 0 true true s)

/-- `ExtendOprandForAlm(op, a)`: sign/zero extension of the 16-bit operand
before it reaches `AlmGeneric`. -/
def ExtendOprandForAlm (op : AlmOp) (a : Nat) : Nat :=
  match op with
  | .Cmp | .Sub | .Add => SignExtend 64 16 a
  | .Addh | .Subh => SignExtend 64 32 ((a <<< 16) % 2 ^ 64)
  | _ => a

/-- `RegToBus16` for the `aXl` names with `enable_sat_for_mov = false`
(the `calla Axl` read path): the low 16 accumulator bits, unsaturated. -/
def RegToBus16_Axl (a : Axl) (s : State) : Nat :=
  GetAcc a.acc s &&& 0xFFFF

/-- `SetPC_Save(new_pc)`: `throw "pc flies"` when the value does not fit
in 18 bits, else install it. -/
def SetPC_Save (new_pc : Nat) (s : State) : Except Fatal State :=
  if 0x40000 ≤ new_pc then .error .pcOverflow
  else .ok {s with pc := new_pc}

/-- Modelled from the spec: `register.h` (`GetPcL`) is not under `src/`;
§4.1: `l = pc & 0xFFFF`. -/
def GetPcL (s : State) : Nat := s.pc % 0x10000

/-- Modelled from the spec: `register.h` (`GetPcH`) is not under `src/`;
§4.1: `h = (pc >> 16) & 3`. -/
def GetPcH (s : State) : Nat := (s.pc >>> 16) % 4

/-- `mem.DataWrite(addr, value)` with the u16 parameter truncation. -/
def dataWrite (addr value : Nat) (s : State) : State :=
  {s with dataMem := fun i => if i = addr % 0x10000 then value % 0x10000 else s.dataMem i}

/-- `mem.DataWrite(--regs.sp, v)`: pre-decrement `sp` (u16 wrap), then
store at the new `sp`. -/
def pushWord (v : Nat) (s : State) : State :=
  let sp := (s.sp + 0xFFFF) % 0x10000
  dataWrite sp v {s with sp := sp}

/-- `PushPC()`: push the split PC, order governed by `pc_endian`. -/
def PushPC (s : State) : State :=
  if s.pc_endian = 1 then pushWord (GetPcL s) (pushWord (GetPcH s) s)
  else pushWord (GetPcH s) (pushWord (GetPcL s) s)

/-- `BlockRepeat(lc, address)`: `throw` on `bcn > 3`, else write the new
frame at index `bcn`, set `lp` and increment `bcn`. -/
def BlockRepeat (lc address : Nat) (s : State) : Except Fatal State :=
  if 3 < s.bcn then .error .loopStackOverflow
  else .ok {s with
    bkrep_stack := fun j => if j = s.bcn then ⟨s.pc, address, lc⟩ else s.bkrep_stack j
    lp := true
    bcn := s.bcn + 1}

/-- `Repeat(repc)`: arm the single-instruction repeat. -/
def Repeat (repc : Nat) (s : State) : State :=
  {s with repc := repc, rep := true}

/-- Modelled from the spec: `register.h` (`ShadowStore`) is not under
`src/`; it snapshots the live flag registers into the shadow bank. -/
def ShadowStore (s : State) : State :=
  {s with shadow := ⟨s.fz, s.fm, s.fn, s.fe, s.fv, s.flv, s.fc0, s.fc1, s.fr, s.fls⟩}

/-- Modelled from the spec: `register.h` (`ShadowSwap`) is not under
`src/`; it exchanges the live flag registers with the shadow bank. -/
def ShadowSwap (s : State) : State :=
  {s with
    fz := s.shadow.sfz, fm := s.shadow.sfm, fn := s.shadow.sfn, fe := s.shadow.sfe
    fv := s.shadow.sfv, flv := s.shadow.sflv, fc0 := s.shadow.sfc0, fc1 := s.shadow.sfc1
    fr := s.shadow.sfr, fls := s.shadow.sfls
    shadow := ⟨s.fz, s.fm, s.fn, s.fe, s.fv, s.flv, s.fc0, s.fc1, s.fr, s.fls⟩}

/-- `ContextStore()`: shadow shuffle plus the `a1`/`b1` cross-move (flag
update only on the `b1 → a1` move). -/
def ContextStore (s : State) : Except Fatal State :=
  let s := ShadowStore s
  let s := ShadowSwap s
  let a := s.a1
  let b := s.b1
  let s := {s with b1 := a}
  SetAcc_NoSaturation .a1 b s

/-- The decoded form of an instruction, i.e. one row of the decode table
(handler plus the operand fields extracted from the opcode word).  The
subset modelled here covers the handlers the specification's claims are
about; expansion-word operands (`Imm16`) are delivered separately by
`Run`, exactly as `decoder.call(*this, opcode, expand_value)` does. -/
inductive Instr where
  | nop
  | rep (imm : Nat)
  | bkrep (imm : Nat) (addr : Nat)
  | break_
  | brr (addr : Nat) (cond : Cond)
  | calla (a : Axl)
  | mov_pc (a : Ax)
  | alu_imm8 (op : AlmOp) (imm : Nat) (b : Ax)
  | alu_imm16 (op : AlmOp) (b : Ax)
  | undef (opcode : Nat)
  deriving DecidableEq, Repr

/-- Whether the decode-table row asks `Run` for an expansion word. -/
def needExpansion : Instr → Bool
  | .alu_imm16 _ _ => true
  | _ => false

/-- Execute one decoded handler.  `expand` is the expansion word (0 when
the instruction has none). -/
def exec (i : Instr) (expand : Nat) (s : State) : Except Fatal State :=
  match i with
  | .nop => .ok s
  | .rep imm => .ok (Repeat imm s)
  | .bkrep imm addr =>
      BlockRepeat imm (addr ||| (s.pc &&& 0x30000)) s
  | .break_ =>
      if !s.lp then .error .notInLoop
      else .ok {s with bcn := s.bcn - 1, lp := s.bcn - 1 != 0}
  | .brr addr c =>
      if conditionPass c s then
        .ok {s with pc := (s.pc + SignExtend 32 7 addr) % 2 ^ 32}
      else .ok s
  | .calla a =>
      let s := PushPC s
      SetPC_Save (RegToBus16_Axl a s) s
  | .mov_pc a =>
      let value := GetAcc a.acc s
      SetPC_Save (value &&& 0xFFFFFFFF) s
  | .alu_imm8 op imm b => do
      let value := imm
      let and_backup := if op = .And then GetAcc b.acc s &&& 0xFF00 else 0
      let s ← AlmGeneric op (ExtendOprandForAlm op value) b s
      if op = .And then
        let and_new := GetAcc b.acc s &&& 0xFFFFFFFFFFFF00FF
        .ok (SetAcc_Simple b.acc (and_backup ||| and_new) s)
      else .ok s
  | .alu_imm16 op b =>
      AlmGeneric op (ExtendOprandForAlm op expand) b s
  | .undef _ => .error .undefinedInstruction

/-- A machine: program memory plus the decode table.  The decode table
itself (`decoder.h`) is not under `src/`; per the spec (§6) it maps each
16-bit opcode to a handler, an expansion-word requirement and the operand
fields — i.e. to an `Instr`. -/
structure Machine where
  prog : Nat → Nat
  decode : Nat → Instr

/-- `mem.ProgramRead(addr)` (u16 return value). -/
def progRead (m : Machine) (addr : Nat) : Nat :=
  m.prog addr % 0x10000

/-- The repeat bookkeeping executed by `Run` before the handler: on `rep`,
either disarm (count exhausted) or decrement `repc` and rewind `pc` by
one. -/
def repBookkeeping (s : State) : State :=
  if s.rep then
    if s.repc = 0 then {s with rep := false}
    else {s with repc := s.repc - 1, pc := (s.pc + 2 ^ 32 - 1) % 2 ^ 32}
  else s

/-- The block-repeat bookkeeping executed by `Run`: when the fetch has
just passed the innermost frame's `end`, either pop the frame (count
exhausted) or decrement `lc` and jump back to `start`. -/
def bkrepBookkeeping (s : State) : State :=
  if s.lp && ((s.bkrep_stack (s.bcn - 1)).end_ + 1) % 2 ^ 32 == s.pc then
    if (s.bkrep_stack (s.bcn - 1)).lc = 0 then
      {s with bcn := s.bcn - 1, lp := s.bcn - 1 != 0}
    else
      {s with
        bkrep_stack := fun j =>
          if j = s.bcn - 1 then
            {s.bkrep_stack (s.bcn - 1) with lc := (s.bkrep_stack (s.bcn - 1)).lc - 1}
          else s.bkrep_stack j
        pc := (s.bkrep_stack (s.bcn - 1)).start}
  else s

/-- The `ip[i] := 0, ie := 0` update performed when regular interrupt `i`
is taken. -/
def clearIp (i : Nat) (s : State) : State :=
  {s with
    ip := fun j => if j = i then false else s.ip j
    ie := false}

/-- The `vip := 0, ie := 0` update performed when the vectored interrupt
is taken. -/
def clearVip (s : State) : State :=
  {s with
    vip := false
    ie := false}

/-- The body of `Run`'s regular-interrupt loop for index `i` (vector
`0x0006 + i * 8`, passed as `vec`): clear `ip[i]` and `ie`, push the PC,
vector, and context-store when `ic[i]` is set. -/
def takeRegular (i vec : Nat) (s : State) : Except Fatal State :=
  let s := clearIp i s
  let s := PushPC s
  let s := {s with pc := vec}
  if s.ic i then ContextStore s else .ok s

/-- The vectored-interrupt branch of `Run`: clear `vip` and `ie`, push
the PC, jump to `viaddr`, and context-store when `vic` is set. -/
def takeVectored (s : State) : Except Fatal State :=
  let s := clearVip s
  let s := PushPC s
  let s := {s with pc := s.viaddr}
  if s.vic then ContextStore s else .ok s

/-- The interrupt-acceptance block at the end of each `Run` cycle: when
`ie` is set and no single-instruction repeat is active, take the
lowest-index pending masked regular interrupt, else a pending vectored
interrupt. -/
def interruptCheck (s : State) : Except Fatal State :=
  if s.ie && !s.rep then
    if s.im 0 && s.ip 0 then takeRegular 0 0x0006 s
    else if s.im 1 && s.ip 1 then takeRegular 1 0x000E s
    else if s.im 2 && s.ip 2 then takeRegular 2 0x0016 s
    else if s.vim && s.vip then takeVectored s
    else .ok s
  else .ok s

/-- One execution event recorded by the modelled `Run`: the address the
instruction was fetched from, its decoded form, and its expansion word. -/
abbrev Event := Nat × Instr × Nat

/-- One iteration of the `Run` loop body: fetch (plus expansion fetch),
repeat bookkeeping, block-repeat bookkeeping, handler dispatch, interrupt
acceptance.  Also returns the execution event. -/
def runStep (m : Machine) (s : State) : Except Fatal (State × Event) := do
  let instrAddr := s.pc
  let opcode := progRead m s.pc
  let s := {s with pc := (s.pc + 1) % 2 ^ 32}
  let inst := m.decode opcode
  let (expand, s) :=
    if needExpansion inst then
      (progRead m s.pc, {s with pc := (s.pc + 1) % 2 ^ 32})
    else (0, s)
  let s := repBookkeeping s
  let s := bkrepBookkeeping s
  let s ← exec inst expand s
  let s ← interruptCheck s
  .ok (s, (instrAddr, inst, expand))

/-- `Run(cycles)`, with the trace of executed instructions. -/
def run (m : Machine) : Nat → State → Except Fatal (State × List Event)
  | 0, s => .ok (s, [])
  | n + 1, s => do
      let (s, ev) ← runStep m s
      let (s, tr) ← run m n s
      .ok (s, ev :: tr)

/-- The single-bit-smear mask derivation of `StepAddress`:
`mask |= mod >> i` for `i = 0 .. 8`. -/
def smearMask (mod : Nat) : Nat :=
  (List.range 9).foldl (fun mask i => mask ||| (mod >>> i)) 0

/-- One in-window wrap of the legacy (and Mode2) dialect of
`StepAddress`'s modulo arithmetic. -/
def modStepLegacy (mod stp : Nat) (step2_mode2 : Bool) (address : Nat) : Nat :=
  let negative := stp >>> 15 ≠ 0
  let mw := if negative then mod ||| (stp ^^^ 0xFFFF) else mod ||| stp
  let mask := smearMask mw
  let next :=
    if !negative then
      if (address &&& mask) = mod ∧ (!step2_mode2 ∨ mod ≠ mask) then 0
      else (address + stp) &&& mask
    else
      if (address &&& mask) = 0 ∧ (!step2_mode2 ∨ mod ≠ mask) then mod
      else (address + stp) &&& mask
  (address &&& (0xFFFF ^^^ mask)) ||| next

/-- One in-window wrap of the modern dialect of `StepAddress`'s modulo
arithmetic. -/
def modStepModern (mod stp : Nat) (address : Nat) : Nat :=
  let mask := smearMask mod
  let next :=
    if stp < 0x8000 then
      let nx := (address + stp) &&& mask
      if nx = (mod + 1) &&& mask then 0 else nx
    else
      let nx := address &&& mask
      let nx := if nx = 0 then (mod + 1) % 0x10000 else nx
      (nx + stp) &&& mask
  (address &&& (0xFFFF ^^^ mask)) ||| next

/-- `StepAddress(unit, address, step, dmod)`: the AGU address-update rule
(linear, modulo — legacy or modern dialect — and the Mode1/Mode2 double
steps). -/
def StepAddress (s : State) (unit address : Nat) (step : StepValue)
    (dmod : Bool) : Nat :=
  let legacy := s.legacy_mod
  let sel : Nat × Bool × Bool :=
    match step with
    | .Zero => (0, false, false)
    | .Increase => (1, false, false)
    | .Decrease => (0xFFFF, false, false)
    | .Increase2Mode1 => (2, !legacy, false)
    | .Decrease2Mode1 => (0xFFFE, !legacy, false)
    | .Increase2Mode2 => (2, false, !legacy)
    | .Decrease2Mode2 => (0xFFFE, false, !legacy)
    | .PlusStep =>
        let stp :=
          if s.brv unit && !s.m unit then (if unit < 4 then s.stepi0 else s.stepj0)
          else SignExtend 16 7 (if unit < 4 then s.stepi else s.stepj)
        let stp :=
          if s.bankstep = 1 && !legacy then
            let t := if unit < 4 then s.stepi0 else s.stepj0
            if s.m unit then SignExtend 16 9 t else t
          else stp
        (stp, false, false)
  let stp := sel.1
  let step2_mode1 := sel.2.1
  let step2_mode2 := sel.2.2
  if stp = 0 then address
  else if !dmod && !s.brv unit && s.m unit then
    let mod := if unit < 4 then s.modi else s.modj
    if mod = 0 then address
    else if mod = 1 ∧ step2_mode2 then address
    else
      let pair : Nat × Nat :=
        if step2_mode1 then (2, SignExtend 16 15 (stp >>> 1)) else (1, stp)
      (List.range pair.1).foldl
        (fun addr _ =>
          if legacy || step2_mode2 then modStepLegacy mod pair.2 step2_mode2 addr
          else modStepModern mod pair.2 addr)
        address
  else (address + stp) % 0x10000

/-- `RnAndModify(unit, step, dmod)`: return the stored `rU` and update it
via `StepAddress`, honoring the `r3z`/`r7z` zero-skip modes. -/
def RnAndModify (s : State) (unit : Nat) (step : StepValue) (dmod : Bool) :
    Nat × State :=
  let ret := s.r unit
  if ((unit = 3 && s.r3z) || (unit = 7 && s.r7z)) &&
      !(step = .Increase2Mode1 || step = .Decrease2Mode1 ||
        step = .Increase2Mode2 || step = .Decrease2Mode2 : Bool) then
    (ret, {s with r := fun j => if j = unit then 0 else s.r j})
  else
    (ret, {s with r := fun j =>
      if j = unit then StepAddress s unit (s.r unit) step dmod else s.r j})

/-- A value is in 40-bit sign-extended (accumulator storage) form. -/
abbrev Sext40 (v : Nat) : Prop := v = SignExtend 64 40 v

/-- The universal register-file invariant of the spec: accumulators are
40-bit sign-extended, at most four live block-repeat frames, and `lp`
exactly when a frame is live. -/
abbrev Inv (s : State) : Prop :=
  Sext40 s.a0 ∧ Sext40 s.a1 ∧ Sext40 s.b0 ∧ Sext40 s.b1 ∧
    s.bcn ≤ 4 ∧ (s.lp = true ↔ 0 < s.bcn)

/-- A state with one live block-repeat frame `{5, 9, 2}` and `pc = 50`. -/
def s4c : State :=
  {blankState with
    bcn := 1
    lp := true
    pc := 50
    bkrep_stack := fun j => if j = 0 then ⟨5, 9, 2⟩ else ⟨0, 0, 0⟩}

/-- The same state with a full block-repeat stack (`bcn = 4`). -/
def s4over : State := {s4c with bcn := 4}

/-- A program consisting solely of an unconditional `brr +1`. -/
def mc5 : Machine where
  prog := fun _ => 200
  decode := fun _ => .brr 1 .always

/-- A state whose `pc` sits one word below the 18-bit boundary. -/
def s5state : State := {blankState with pc := 0x3FFFE}

/-- A program with `rep 1` at 0 followed by a two-word instruction at 1
(expansion word at 2; the word at 2 decodes to `nop` when fetched as an
opcode). -/
def mc3 : Machine where
  prog := fun a => if a = 0 then 100 else if a = 1 then 101 else 102
  decode := fun op =>
    if op = 100 then .rep 1 else if op = 101 then .alu_imm16 .Or .a0 else .nop

/-- A program with `rep 3` at 0 followed by `nop`s. -/
def mw3 : Machine where
  prog := fun a => if a = 0 then 100 else 101
  decode := fun op => if op = 100 then .rep 3 else .nop

/-- An all-`nop` program. -/
def mNop : Machine where
  prog := fun _ => 0
  decode := fun _ => .nop

/-- The state after one `Run` cycle of the all-`nop` program from the
blank state. -/
def afterNop : State :=
  match run mNop 1 blankState with
  | .ok (s, _) => s
  | .error _ => blankState

/-- A state with address unit 0 in modulo mode (`m[0] = 1`, `brv[0] = 0`),
`stepi = 1`, modern dialect, and the given `modi`. -/
def s9 (mod : Nat) : State :=
  {blankState with
    m := fun u => u == 0
    stepi := 1
    modi := mod}

/-- The `PlusStep` address transformation of unit 0 in the `s9`
configuration. -/
def stepF (mod : Nat) : Nat → Nat :=
  fun address => StepAddress (s9 mod) 0 address .PlusStep false

/-- A state with `ie` set and interrupt 1 masked-in and pending. -/
def wC2 : State :=
  {blankState with
    ie := true
    pc := 0x123
    sp := 0x100
    im := fun i => i == 1
    ip := fun i => i == 1}

end Teakra

namespace Teakra

theorem SignExtend_lt (w n v : Nat) (h : n ≤ w) : SignExtend w n v < 2 ^ w := by
  have h1 : v % 2 ^ n < 2 ^ n := Nat.mod_lt _ (Nat.two_pow_pos n)
  have h2 : 2 ^ n ≤ 2 ^ w := Nat.pow_le_pow_right (by omega) h
  have h3 : 0 < 2 ^ w := Nat.two_pow_pos w
  unfold SignExtend
  split <;> omega

theorem SignExtend_mod (w n v : Nat) (h : n ≤ w) :
    SignExtend w n v % 2 ^ n = v % 2 ^ n := by
  have hd : 2 ^ w - 2 ^ n = 2 ^ n * (2 ^ (w - n) - 1) := by
    rw [Nat.mul_sub, Nat.mul_one, ← Nat.pow_add]
    congr 2
    omega
  have h1 : v % 2 ^ n < 2 ^ n := Nat.mod_lt _ (Nat.two_pow_pos n)
  unfold SignExtend
  split
  · rw [hd, Nat.mul_comm, Nat.add_mul_mod_self_right]
    exact Nat.mod_eq_of_lt h1
  · exact Nat.mod_eq_of_lt h1

theorem SignExtend_congr (w n x y : Nat) (h : x % 2 ^ n = y % 2 ^ n) :
    SignExtend w n x = SignExtend w n y := by
  unfold SignExtend
  rw [h]

theorem SignExtend_SignExtend (w n v : Nat) (h : n ≤ w) :
    SignExtend w n (SignExtend w n v) = SignExtend w n v := by
  exact SignExtend_congr w n _ v (SignExtend_mod w n v h)

theorem SignExtend_eq_self (w n v : Nat) (hv : v < 2 ^ (n - 1)) :
    SignExtend w n v = v := by
  have h2 : 2 ^ (n - 1) ≤ 2 ^ n := Nat.pow_le_pow_right (by omega) (by omega)
  have hmod : v % 2 ^ n = v := Nat.mod_eq_of_lt (by omega)
  unfold SignExtend
  rw [hmod]
  split <;> omega

theorem Sext40_of_lt (v : Nat) (hv : v < 2 ^ 39) : Sext40 v := by
  unfold Sext40
  exact (SignExtend_eq_self 64 40 v hv).symm

theorem Sext40_SignExtend (v : Nat) : Sext40 (SignExtend 64 40 v) := by
  unfold Sext40
  exact (SignExtend_SignExtend 64 40 v (by omega)).symm

theorem Sext40_lt (v : Nat) (h : Sext40 v) : v < 2 ^ 64 := by
  rw [h]
  exact SignExtend_lt 64 40 v (by omega)

theorem testBit_top (w k : Nat) (h : w < 2 ^ (k + 1)) :
    w.testBit k = decide (2 ^ k ≤ w) := by
  have h0 : 0 < 2 ^ k := Nat.two_pow_pos k
  have h2 : w / 2 ^ k < 2 := by
    rw [Nat.div_lt_iff_lt_mul h0]
    rw [Nat.pow_succ] at h
    omega
  have h3 : (1 ≤ w / 2 ^ k) ↔ 2 ^ k ≤ w := Nat.one_le_div_iff h0
  rw [Nat.testBit_to_div_mod, Nat.mod_eq_of_lt h2, decide_eq_decide]
  constructor
  · intro h4
    exact h3.mp (by omega)
  · intro h4
    have h5 := h3.mpr h4
    omega

theorem testBit_add_mul_two_pow (lo k a i : Nat) (hlo : lo < 2 ^ k) :
    (lo + 2 ^ k * a).testBit i =
      if i < k then lo.testBit i else a.testBit (i - k) := by
  rcases Nat.lt_or_ge i k with hik | hik
  · rw [if_pos hik, Nat.testBit_to_div_mod, Nat.testBit_to_div_mod]
    have hsplit : 2 ^ k * a = 2 ^ i * (2 ^ (k - i - 1) * a * 2) := by
      rw [Nat.mul_comm _ 2, ← Nat.mul_assoc, ← Nat.mul_assoc]
      rw [show 2 ^ i * 2 = 2 ^ (i + 1) by rw [Nat.pow_succ]]
      rw [← Nat.pow_add]
      congr 2
      omega
    rw [hsplit, Nat.add_mul_div_left _ _ (Nat.two_pow_pos i),
      Nat.add_mul_mod_self_right]
  · rw [if_neg (by omega), Nat.testBit_to_div_mod, Nat.testBit_to_div_mod]
    have hdiv : (lo + 2 ^ k * a) / 2 ^ i = a / 2 ^ (i - k) := by
      have hsplit : 2 ^ i = 2 ^ k * 2 ^ (i - k) := by
        rw [← Nat.pow_add]
        congr 1
        omega
      rw [hsplit, ← Nat.div_div_eq_div_mul,
        Nat.add_mul_div_left _ _ (Nat.two_pow_pos k), Nat.div_eq_of_lt hlo,
        Nat.zero_add]
    rw [hdiv]

theorem testBit_mul_two_pow (k a i : Nat) :
    (2 ^ k * a).testBit i = if i < k then false else a.testBit (i - k) := by
  have h := testBit_add_mul_two_pow 0 k a i (Nat.two_pow_pos k)
  rw [Nat.zero_add] at h
  rw [h]
  split
  · exact Nat.zero_testBit i
  · rfl

theorem testBit_SignExtend6440 (v i : Nat) :
    (SignExtend 64 40 v).testBit i =
      if i < 40 then v.testBit i
      else if i < 64 then v.testBit 39 else false := by
  have hlo : v % 2 ^ 40 < 2 ^ 40 := Nat.mod_lt _ (Nat.two_pow_pos 40)
  have hb39 : v.testBit 39 = decide (2 ^ 39 ≤ v % 2 ^ 40) := by
    have h1 : v.testBit 39 = (v % 2 ^ 40).testBit 39 := by
      rw [Nat.testBit_mod_two_pow]
      simp
    rw [h1, testBit_top _ 39 hlo]
  have hcond : SignExtend 64 40 v =
      if 2 ^ 39 ≤ v % 2 ^ 40 then v % 2 ^ 40 + (2 ^ 64 - 2 ^ 40) else v % 2 ^ 40 := by
    unfold SignExtend
    norm_num
  rw [hcond]
  by_cases hc : 2 ^ 39 ≤ v % 2 ^ 40
  · rw [if_pos hc]
    have hhigh : (2 ^ 64 - 2 ^ 40 : Nat) = 2 ^ 40 * (2 ^ 24 - 1) := by norm_num
    rw [hhigh, testBit_add_mul_two_pow _ _ _ _ hlo]
    by_cases h40 : i < 40
    · rw [if_pos h40, if_pos h40, Nat.testBit_mod_two_pow]
      simp [h40]
    · rw [if_neg h40, if_neg h40, Nat.testBit_two_pow_sub_one, hb39]
      by_cases h64 : i < 64
      · rw [if_pos h64]
        simp [hc]
        omega
      · rw [if_neg h64]
        simp
        omega
  · rw [if_neg hc]
    by_cases h40 : i < 40
    · rw [if_pos h40, Nat.testBit_mod_two_pow]
      simp [h40]
    · rw [if_neg h40]
      have hfalse : (v % 2 ^ 40).testBit i = false :=
        Nat.testBit_lt_two_pow
          (lt_of_lt_of_le hlo (Nat.pow_le_pow_right (by omega) (by omega)))
      rw [hfalse, hb39]
      split
      · exact (decide_eq_false hc).symm
      · rfl

theorem Sext40_testBit (v : Nat) :
    Sext40 v ↔ v < 2 ^ 64 ∧ ∀ i, 40 ≤ i → i < 64 → v.testBit i = v.testBit 39 := by
  constructor
  · intro h
    refine ⟨Sext40_lt v h, fun i h40 h64 => ?_⟩
    conv_lhs => rw [h]
    rw [testBit_SignExtend6440, if_neg (by omega), if_pos h64]
  · rintro ⟨hlt, hbits⟩
    unfold Sext40
    apply Nat.eq_of_testBit_eq
    intro i
    rw [testBit_SignExtend6440]
    split
    · rfl
    · split
      · exact hbits i (by omega) (by assumption)
      · exact Nat.testBit_lt_two_pow
          (lt_of_lt_of_le hlt (Nat.pow_le_pow_right (by omega) (by omega)))

theorem Sext40_land (v c : Nat) (h : Sext40 v)
    (hc : ∀ i, 39 ≤ i → i < 64 → c.testBit i = true) : Sext40 (v &&& c) := by
  rcases (Sext40_testBit v).mp h with ⟨hlt, hbits⟩
  apply (Sext40_testBit _).mpr
  refine ⟨lt_of_le_of_lt Nat.and_le_left hlt, fun i h40 h64 => ?_⟩
  rw [Nat.testBit_land, Nat.testBit_land, hc i (by omega) h64,
    hc 39 (by omega) (by omega), hbits i h40 h64]

theorem Sext40_lor_low (v w : Nat) (h : Sext40 v) (hw : w < 2 ^ 39) :
    Sext40 (w ||| v) := by
  rcases (Sext40_testBit v).mp h with ⟨hlt, hbits⟩
  apply (Sext40_testBit _).mpr
  have hw64 : w < 2 ^ 64 := lt_of_lt_of_le hw (by norm_num)
  refine ⟨Nat.or_lt_two_pow hw64 hlt, fun i h40 h64 => ?_⟩
  have hwi : w.testBit i = false :=
    Nat.testBit_lt_two_pow (lt_of_lt_of_le hw (Nat.pow_le_pow_right (by omega) (by omega)))
  have hw39 : w.testBit 39 = false :=
    Nat.testBit_lt_two_pow (lt_of_lt_of_le hw (Nat.pow_le_pow_right (by omega) (by omega)))
  rw [Nat.testBit_lor, Nat.testBit_lor, hwi, hw39, hbits i h40 h64]

theorem testBit39_mod (v : Nat) : v.testBit 39 = decide (2 ^ 39 ≤ v % 2 ^ 40) := by
  have hlo : v % 2 ^ 40 < 2 ^ 40 := Nat.mod_lt _ (Nat.two_pow_pos 40)
  have h1 : v.testBit 39 = (v % 2 ^ 40).testBit 39 := by
    rw [Nat.testBit_mod_two_pow]
    simp
  rw [h1, testBit_top _ 39 hlo]

theorem Sext40_shift39 (v : Nat) (h : Sext40 v) :
    v >>> 39 = 0 ↔ v.testBit 39 = false := by
  rw [Nat.shiftRight_eq_div_pow, testBit39_mod]
  constructor
  · intro h0
    have hvlt : v < 2 ^ 39 := by
      by_contra hge
      push_neg at hge
      have h1 := (Nat.one_le_div_iff (Nat.two_pow_pos 39)).mpr hge
      omega
    simp only [decide_eq_false_iff_not]
    omega
  · intro hb
    simp only [decide_eq_false_iff_not] at hb
    have hv2 : v = v % 2 ^ 40 := by
      conv_lhs => rw [h]
      unfold SignExtend
      rw [if_neg (by norm_num; omega)]
    rw [hv2]
    exact Nat.div_eq_of_lt (by omega)

/-- Claim C6 (counterexample): `AddSub(0x00FFFFFFFF, 0x01, false)` does
not behave as the claim states — the carry flag comes out 0, not 1. -/
theorem teakra_C6_counterexample :
    ¬((AddSub 0x00FFFFFFFF 0x01 false blankState).1 = 0x0100000000 ∧
      (AddSub 0x00FFFFFFFF 0x01 false blankState).2.fc0 = true ∧
      (AddSub 0x00FFFFFFFF 0x01 false blankState).2.fv = false) := by
  decide

/-- Claim C6 (amended): `AddSub(0x00FFFFFFFF, 0x01, false)` returns
`0x0100000000`, sets flag C (`fc[0]`) to 0, and sets flag V (`fv`) to 0. -/
theorem teakra_C6 (s : State) :
    (AddSub 0x00FFFFFFFF 0x01 false s).1 = 0x0100000000 ∧
    (AddSub 0x00FFFFFFFF 0x01 false s).2.fc0 = false ∧
    (AddSub 0x00FFFFFFFF 0x01 false s).2.fv = false :=
  ⟨rfl, rfl, rfl⟩

/-- Claim C7: for every 40-bit sign-extended `a` and every operand `b`,
`AddSub(AddSub(a, b, false), b, true) = a`; `AddSub` itself never
saturates, so no saturation side condition is needed. -/
theorem teakra_C7 (a b : Nat) (s : State) (ha : Sext40 a) :
    (AddSub (AddSub a b false s).1 b true (AddSub a b false s).2).1 = a := by
  have hmask : ∀ x : Nat, x &&& 0xFFFFFFFFFF = x % 2 ^ 40 := fun x => by
    have h := Nat.and_pow_two_sub_one_eq_mod x 40
    norm_num at h
    exact h
  simp only [AddSub, hmask, Bool.false_eq_true, if_false, if_true]
  have hm1 : SignExtend 64 40 ((a % 2 ^ 40 + b % 2 ^ 40) % 2 ^ 64) % 2 ^ 40 =
      (a % 2 ^ 40 + b % 2 ^ 40) % 2 ^ 64 % 2 ^ 40 :=
    SignExtend_mod 64 40 _ (by omega)
  refine (SignExtend_congr 64 40 _ a ?_).trans ha.symm
  rw [hm1]
  omega

/-- Claim C7 (witness): the round-trip at `a = 42`, `b = 7`. -/
theorem teakra_C7_witness :
    Sext40 42 ∧
    (AddSub (AddSub 42 7 false blankState).1 7 true (AddSub 42 7 false blankState).2).1 = 42 :=
  ⟨by decide, teakra_C7 42 7 blankState (by decide)⟩

/-- Claim C8: `SaturateAcc(v, s)` returns `v` unchanged (and leaves `fls`
alone) when `v = SE(32, v)` or `sar[s]` is set; otherwise it clamps —
to `0xFFFFFFFF80000000` when bit 39 of `v` is set, else to
`0x000000007FFFFFFF` — and sets `fls`. -/
theorem teakra_C8 (v : Nat) (storing : Bool) (s : State) (hv : Sext40 v) :
    ((v = SignExtend 64 32 v ∨ s.sar storing = true) →
      SaturateAcc v storing s = (v, s)) ∧
    (v ≠ SignExtend 64 32 v → s.sar storing = false →
      SaturateAcc v storing s =
        (if v.testBit 39 then 0xFFFFFFFF80000000 else 0x000000007FFFFFFF,
          {s with fls := true})) := by
  constructor
  · intro hcase
    unfold SaturateAcc SaturateAcc_Unconditional
    rcases hcase with heq | hsar
    · split
      · rw [if_neg (by simpa using heq)]
      · rfl
    · rw [hsar]
      simp
  · intro hne hsar
    unfold SaturateAcc SaturateAcc_Unconditional
    rw [hsar]
    by_cases hb : v.testBit 39
    · have hs : v >>> 39 ≠ 0 := by
        intro h0
        rw [(Sext40_shift39 v hv).mp h0] at hb
        exact Bool.false_ne_true hb
      simp [hne, hs, hb]
    · have hs : v >>> 39 = 0 := (Sext40_shift39 v hv).mpr (by simpa using hb)
      simp [hne, hs, hb]

/-- Claim C8 (witness): saturation of `0x1234567890` on the read path with
`sar[0] = 0`. -/
theorem teakra_C8_witness :
    Sext40 0x1234567890 ∧ 0x1234567890 ≠ SignExtend 64 32 0x1234567890 ∧
    SaturateAcc 0x1234567890 false blankState =
      (if (0x1234567890 : Nat).testBit 39 then 0xFFFFFFFF80000000
        else 0x000000007FFFFFFF,
        {blankState with fls := true}) :=
  ⟨by decide, by decide,
    (teakra_C8 0x1234567890 false blankState (by decide)).2 (by decide) rfl⟩

/-- Claim C4 (counterexample): with one live frame `{5, 9, 2}`,
`BlockRepeat 7 100` at `pc = 50` leaves frame 0 untouched and writes the
new frame at index 1 — frame 0 is not the pushed (innermost) frame and
nothing shifts up. -/
theorem teakra_C4_counterexample :
    (BlockRepeat 7 100 s4c).map
        (fun s => (s.bkrep_stack 0, s.bkrep_stack 1, s.bcn)) =
      .ok (⟨5, 9, 2⟩, ⟨50, 100, 7⟩, 2) ∧
    ¬((⟨5, 9, 2⟩ : BkrepFrame) = ⟨50, 100, 7⟩) := by
  constructor
  · rfl
  · decide

/-- Claim C4 (amended): `BlockRepeat(count, addr)` appends the frame
`{start = pc, end = addr, lc = count}` at index `bcn` — existing frames
stay in place and the innermost frame is index `bcn - 1` after the push —
sets `lp = 1` and increments `bcn`; a push attempted when `bcn = 4` fails
with `LoopStackOverflow` and modifies no state. -/
theorem teakra_C4 (lc addr : Nat) (s : State) :
    (s.bcn ≤ 3 →
      BlockRepeat lc addr s = .ok {s with
        bkrep_stack := fun j => if j = s.bcn then ⟨s.pc, addr, lc⟩ else s.bkrep_stack j
        lp := true
        bcn := s.bcn + 1}) ∧
    (s.bcn = 4 → BlockRepeat lc addr s = .error .loopStackOverflow) := by
  constructor
  · intro h
    unfold BlockRepeat
    rw [if_neg (by omega)]
  · intro h
    unfold BlockRepeat
    rw [if_pos (by omega)]

/-- Claim C4 (witness): the amended claim applied at the one-frame state
and at the full-stack state. -/
theorem teakra_C4_witness :
    (s4c.bcn ≤ 3 ∧
      BlockRepeat 7 100 s4c = .ok {s4c with
        bkrep_stack := fun j => if j = s4c.bcn then ⟨s4c.pc, 100, 7⟩ else s4c.bkrep_stack j
        lp := true
        bcn := s4c.bcn + 1}) ∧
    (s4over.bcn = 4 ∧ BlockRepeat 7 100 s4over = .error .loopStackOverflow) :=
  ⟨⟨by decide, (teakra_C4 7 100 s4c).1 (by decide)⟩,
    ⟨by decide, (teakra_C4 7 100 s4over).2 (by decide)⟩⟩

/-- Claim C5 (counterexample): a taken `brr +1` fetched at `pc = 0x3FFFE`
finishes the cycle with `pc = 0x40000 ≥ 2^18` and no fatal error — the
value is installed silently, with no `PCOverflow` abort. -/
theorem teakra_C5_counterexample :
    (runStep mc5 s5state).map (fun p => p.1.pc) = .ok 0x40000 ∧
    ¬((0x40000 : Nat) < 0x40000) := by
  constructor
  · rfl
  · decide

/-- Claim C5 (amended): the 18-bit overflow check lives in `SetPC_Save`:
every PC write routed through it (e.g. `mov pc, aX`) aborts with
`PCOverflow` when the value is ≥ 2^18 and installs it otherwise; `brr`,
however, adds its sign-extended offset to `pc` with no check, so values
≥ 2^18 can be installed silently (see the counterexample), and `calla aX`
masks the accumulator to 18 bits before the check. -/
theorem teakra_C5 (v : Nat) (s : State) (a : Ax) :
    (0x40000 ≤ v → SetPC_Save v s = .error .pcOverflow) ∧
    (v < 0x40000 → SetPC_Save v s = .ok {s with pc := v}) ∧
    (0x40000 ≤ GetAcc a.acc s &&& 0xFFFFFFFF →
      exec (.mov_pc a) 0 s = .error .pcOverflow) := by
  refine ⟨fun h => ?_, fun h => ?_, fun h => ?_⟩
  · unfold SetPC_Save
    rw [if_pos h]
  · unfold SetPC_Save
    rw [if_neg (by omega)]
  · simp only [exec, SetPC_Save]
    rw [if_pos h]

/-- Claim C5 (witness): the amended claim applied at `0x50000`, `0x123`,
and an accumulator holding `0x50000`. -/
theorem teakra_C5_witness :
    (0x40000 ≤ (0x50000 : Nat) ∧
      SetPC_Save 0x50000 blankState = .error .pcOverflow) ∧
    ((0x123 : Nat) < 0x40000 ∧
      SetPC_Save 0x123 blankState = .ok {blankState with pc := 0x123}) ∧
    (0x40000 ≤ GetAcc Ax.a0.acc {blankState with a0 := 0x50000} &&& 0xFFFFFFFF ∧
      exec (.mov_pc .a0) 0 {blankState with a0 := 0x50000} = .error .pcOverflow) :=
  ⟨⟨by decide, (teakra_C5 0x50000 blankState .a0).1 (by decide)⟩,
    ⟨by decide, (teakra_C5 0x123 blankState .a0).2.1 (by decide)⟩,
    ⟨by decide, (teakra_C5 0 {blankState with a0 := 0x50000} .a0).2.2 (by decide)⟩⟩

theorem GetAcc_SetAcc_Simple (name : Acc) (v : Nat) (s : State) :
    GetAcc name (SetAcc_Simple name v s) = v := by
  cases name <;> rfl

theorem SetAcc_Simple_flags (name : Acc) (v : Nat) (s : State) :
    (SetAcc_Simple name v s).fz = s.fz ∧ (SetAcc_Simple name v s).fm = s.fm ∧
    (SetAcc_Simple name v s).fe = s.fe ∧ (SetAcc_Simple name v s).fn = s.fn := by
  cases name <;> exact ⟨rfl, rfl, rfl, rfl⟩

theorem land_low_byte (v : Nat) (hv : v < 256) :
    v &&& 0xFFFFFFFFFFFF00FF = v := by
  apply Nat.eq_of_testBit_eq
  intro i
  rw [Nat.testBit_land]
  rcases Nat.lt_or_ge i 8 with h8 | h8
  · have hc : (0xFFFFFFFFFFFF00FF : Nat).testBit i = true := by
      have hd : (0xFFFFFFFFFFFF00FF : Nat) = 0xFF + 2 ^ 16 * 0xFFFFFFFFFFFF := by
        norm_num
      rw [hd, testBit_add_mul_two_pow 0xFF 16 _ i (by norm_num), if_pos (by omega)]
      have h255 : (0xFF : Nat) = 2 ^ 8 - 1 := by norm_num
      rw [h255, Nat.testBit_two_pow_sub_one]
      simp [h8]
    rw [hc, Bool.and_true]
  · have h2i : (256 : Nat) ≤ 2 ^ i := by
      calc (256 : Nat) = 2 ^ 8 := by norm_num
        _ ≤ 2 ^ i := Nat.pow_le_pow_right (by omega) h8
    have hv8 : v.testBit i = false := Nat.testBit_lt_two_pow (lt_of_lt_of_le hv h2i)
    rw [hv8, Bool.false_and]

theorem SetAccFlag_ok (v : Nat) (s : State) (hv : Sext40 v) :
    SetAccFlag v s = .ok (applyAccFlag v s) := by
  unfold SetAccFlag
  rw [if_neg (fun hc => hc hv)]

theorem SetAcc_NoSaturation_ok (name : Acc) (v : Nat) (s : State) (hv : Sext40 v) :
    SetAcc_NoSaturation name v s = .ok (SetAcc_Simple name v (applyAccFlag v s)) := by
  show Except.bind (SetAccFlag v s) _ = _
  rw [SetAccFlag_ok v s hv]
  rfl

theorem PushPC_fields (s : State) :
    (PushPC s).pc = s.pc ∧ (PushPC s).ie = s.ie ∧ (PushPC s).ip = s.ip ∧
    (PushPC s).vip = s.vip ∧ (PushPC s).rep = s.rep ∧ (PushPC s).lp = s.lp ∧
    (PushPC s).bcn = s.bcn ∧ (PushPC s).bkrep_stack = s.bkrep_stack ∧
    (PushPC s).a0 = s.a0 ∧ (PushPC s).a1 = s.a1 ∧ (PushPC s).b0 = s.b0 ∧
    (PushPC s).b1 = s.b1 ∧ (PushPC s).ic = s.ic ∧ (PushPC s).vic = s.vic ∧
    (PushPC s).vim = s.vim ∧ (PushPC s).viaddr = s.viaddr := by
  unfold PushPC pushWord dataWrite
  by_cases hcase : s.pc_endian = 1
  · rw [if_pos hcase]
    exact ⟨rfl, rfl, rfl, rfl, rfl, rfl, rfl, rfl, rfl, rfl, rfl, rfl, rfl, rfl, rfl, rfl⟩
  · rw [if_neg hcase]
    exact ⟨rfl, rfl, rfl, rfl, rfl, rfl, rfl, rfl, rfl, rfl, rfl, rfl, rfl, rfl, rfl, rfl⟩

theorem pushWord_congr (v : Nat) (u1 u2 : State) (hsp : u1.sp = u2.sp)
    (hd : u1.dataMem = u2.dataMem) :
    (pushWord v u1).sp = (pushWord v u2).sp ∧
    (pushWord v u1).dataMem = (pushWord v u2).dataMem := by
  constructor
  · show (u1.sp + 0xFFFF) % 0x10000 = (u2.sp + 0xFFFF) % 0x10000
    rw [hsp]
  · show (fun i => if i = ((u1.sp + 0xFFFF) % 0x10000) % 0x10000
        then v % 0x10000 else u1.dataMem i) =
      (fun i => if i = ((u2.sp + 0xFFFF) % 0x10000) % 0x10000
        then v % 0x10000 else u2.dataMem i)
    rw [hsp, hd]

theorem PushPC_congr (s t : State) (hpc : t.pc = s.pc) (hsp : t.sp = s.sp)
    (he : t.pc_endian = s.pc_endian) (hd : t.dataMem = s.dataMem) :
    (PushPC t).sp = (PushPC s).sp ∧ (PushPC t).dataMem = (PushPC s).dataMem := by
  have hl : GetPcL t = GetPcL s := by
    unfold GetPcL
    rw [hpc]
  have hh : GetPcH t = GetPcH s := by
    unfold GetPcH
    rw [hpc]
  unfold PushPC
  rw [he, hl, hh]
  by_cases hcase : s.pc_endian = 1
  · rw [if_pos hcase, if_pos hcase]
    rcases pushWord_congr (GetPcH s) t s hsp hd with ⟨h1, h2⟩
    exact pushWord_congr (GetPcL s) _ _ h1 h2
  · rw [if_neg hcase, if_neg hcase]
    rcases pushWord_congr (GetPcL s) t s hsp hd with ⟨h1, h2⟩
    exact pushWord_congr (GetPcH s) _ _ h1 h2

theorem ContextStore_fields (s : State) (hb : Sext40 s.b1) :
    ∃ s2, ContextStore s = .ok s2 ∧ s2.pc = s.pc ∧ s2.sp = s.sp ∧
      s2.dataMem = s.dataMem ∧ s2.ip = s.ip ∧ s2.ie = s.ie ∧ s2.vip = s.vip ∧
      s2.rep = s.rep ∧ s2.lp = s.lp ∧ s2.bcn = s.bcn ∧
      s2.bkrep_stack = s.bkrep_stack ∧
      s2.a0 = s.a0 ∧ s2.a1 = s.b1 ∧ s2.b0 = s.b0 ∧ s2.b1 = s.a1 := by
  have h : ContextStore s =
      SetAcc_NoSaturation .a1 s.b1 {ShadowSwap (ShadowStore s) with b1 := s.a1} := rfl
  rw [h, SetAcc_NoSaturation_ok _ _ _ hb]
  exact ⟨_, rfl, rfl, rfl, rfl, rfl, rfl, rfl, rfl, rfl, rfl, rfl, rfl, rfl, rfl, rfl⟩

theorem takeRegular_spec (s : State) (i vec : Nat) (hb : Sext40 s.b1) :
    ∃ s2, takeRegular i vec s = .ok s2 ∧
      s2.pc = vec ∧ s2.ip i = false ∧ s2.ie = false ∧
      s2.sp = (PushPC s).sp ∧ s2.dataMem = (PushPC s).dataMem ∧ s2.vip = s.vip := by
  set s1 : State := clearIp i s with hs1
  set X : State := {PushPC s1 with pc := vec} with hX
  rcases PushPC_fields s1 with
    ⟨_, hie1, hip1, hvip1, _, _, _, _, _, _, _, hb1, _, _, _, _⟩
  rcases PushPC_congr s s1 rfl rfl rfl rfl with ⟨hsp1, hd1⟩
  have hXip : X.ip i = false := by
    show (PushPC s1).ip i = false
    rw [hip1, hs1]
    show (if i = i then false else s.ip i) = false
    rw [if_pos rfl]
  have hXie : X.ie = false := by
    show (PushPC s1).ie = false
    rw [hie1]
    rfl
  have hXvip : X.vip = s.vip := by
    show (PushPC s1).vip = s.vip
    rw [hvip1]
    rfl
  have hXb1 : Sext40 X.b1 := by
    show Sext40 (PushPC s1).b1
    rw [hb1]
    exact hb
  show ∃ s2, (if X.ic i then ContextStore X else .ok X) = .ok s2 ∧ _
  by_cases hic : X.ic i = true
  · rw [if_pos hic]
    rcases ContextStore_fields X hXb1 with
      ⟨s2, hcs, hpc2, hsp2, hd2, hip2, hie2, hvip2, _, _, _, _, _, _, _, _⟩
    refine ⟨s2, hcs, ?_, ?_, ?_, ?_, ?_, ?_⟩
    · rw [hpc2]
    · rw [hip2]
      exact hXip
    · rw [hie2]
      exact hXie
    · rw [hsp2]
      exact hsp1
    · rw [hd2]
      exact hd1
    · rw [hvip2]
      exact hXvip
  · rw [if_neg hic]
    exact ⟨X, rfl, rfl, hXip, hXie, hsp1, hd1, hXvip⟩

theorem takeVectored_spec (s : State) (hb : Sext40 s.b1) :
    ∃ s2, takeVectored s = .ok s2 ∧
      s2.pc = s.viaddr ∧ s2.vip = false ∧ s2.ie = false ∧
      s2.sp = (PushPC s).sp ∧ s2.dataMem = (PushPC s).dataMem := by
  set s1 : State := clearVip s with hs1
  set X : State := {PushPC s1 with pc := (PushPC s1).viaddr} with hX
  rcases PushPC_fields s1 with
    ⟨_, hie1, _, hvip1, _, _, _, _, _, _, _, hb1, _, _, _, hva1⟩
  rcases PushPC_congr s s1 rfl rfl rfl rfl with ⟨hsp1, hd1⟩
  have hXpc : X.pc = s.viaddr := by
    show (PushPC s1).viaddr = s.viaddr
    rw [hva1]
    rfl
  have hXvip : X.vip = false := by
    show (PushPC s1).vip = false
    rw [hvip1]
    rfl
  have hXie : X.ie = false := by
    show (PushPC s1).ie = false
    rw [hie1]
    rfl
  have hXb1 : Sext40 X.b1 := by
    show Sext40 (PushPC s1).b1
    rw [hb1]
    exact hb
  show ∃ s2, (if X.vic then ContextStore X else .ok X) = .ok s2 ∧ _
  by_cases hic : X.vic = true
  · rw [if_pos hic]
    rcases ContextStore_fields X hXb1 with
      ⟨s2, hcs, hpc2, hsp2, hd2, hip2, hie2, hvip2, _, _, _, _, _, _, _, _⟩
    refine ⟨s2, hcs, ?_, ?_, ?_, ?_, ?_⟩
    · rw [hpc2]
      exact hXpc
    · rw [hvip2]
      exact hXvip
    · rw [hie2]
      exact hXie
    · rw [hsp2]
      exact hsp1
    · rw [hd2]
      exact hd1
  · rw [if_neg hic]
    exact ⟨X, rfl, hXpc, hXvip, hXie, hsp1, hd1⟩

/-- Claim C2: at the end of an instruction cycle, when `ie` is set and no
single-instruction repeat is active, the lowest-index `i` with both
`im[i]` and `ip[i]` set is taken: `ip[i]` clears, `ie` clears, the old PC
is pushed (`sp` and memory are exactly those of `PushPC` on the
pre-state), and `pc` becomes `0x0006 + 8 * i`; a pending vectored
interrupt (`vim ∧ vip`) is taken only when no regular interrupt is both
masked-in and pending. -/
theorem teakra_C2 (s : State) (hie : s.ie = true) (hrep : s.rep = false) :
    (∀ i, i < 3 → s.im i = true → s.ip i = true →
      (∀ j, j < i → ¬(s.im j = true ∧ s.ip j = true)) → Sext40 s.b1 →
      ∃ s2, interruptCheck s = .ok s2 ∧
        s2.pc = 0x0006 + 8 * i ∧ s2.ip i = false ∧ s2.ie = false ∧
        s2.sp = (PushPC s).sp ∧ s2.dataMem = (PushPC s).dataMem ∧
        s2.vip = s.vip) ∧
    ((∀ j, j < 3 → ¬(s.im j = true ∧ s.ip j = true)) → s.vim = true →
      s.vip = true → Sext40 s.b1 →
      ∃ s2, interruptCheck s = .ok s2 ∧ s2.pc = s.viaddr ∧ s2.vip = false ∧
        s2.ie = false ∧ s2.sp = (PushPC s).sp ∧
        s2.dataMem = (PushPC s).dataMem) := by
  have handf : ∀ a b : Bool, ¬(a = true ∧ b = true) → (a && b) = false := by
    intro a b hnot
    cases ha : a <;> cases hb : b <;> simp_all
  constructor
  · intro i hi him hip hmin hb
    interval_cases i
    · have hred : interruptCheck s = takeRegular 0 0x0006 s := by
        unfold interruptCheck
        rw [hie, hrep, him, hip]
        rfl
      rw [hred]
      rcases takeRegular_spec s 0 0x0006 hb with ⟨s2, h1, h2, h3⟩
      exact ⟨s2, h1, by rw [h2], h3⟩
    · have h0 : (s.im 0 && s.ip 0) = false := handf _ _ (hmin 0 (by omega))
      have hred : interruptCheck s = takeRegular 1 0x000E s := by
        unfold interruptCheck
        rw [hie, hrep, h0, him, hip]
        rfl
      rw [hred]
      rcases takeRegular_spec s 1 0x000E hb with ⟨s2, h1, h2, h3⟩
      exact ⟨s2, h1, by rw [h2], h3⟩
    · have h0 : (s.im 0 && s.ip 0) = false := handf _ _ (hmin 0 (by omega))
      have h1 : (s.im 1 && s.ip 1) = false := handf _ _ (hmin 1 (by omega))
      have hred : interruptCheck s = takeRegular 2 0x0016 s := by
        unfold interruptCheck
        rw [hie, hrep, h0, h1, him, hip]
        rfl
      rw [hred]
      rcases takeRegular_spec s 2 0x0016 hb with ⟨s2, hh1, hh2, hh3⟩
      exact ⟨s2, hh1, by rw [hh2], hh3⟩
  · intro hall hvim hvip hb
    have h0 : (s.im 0 && s.ip 0) = false := handf _ _ (hall 0 (by omega))
    have h1 : (s.im 1 && s.ip 1) = false := handf _ _ (hall 1 (by omega))
    have h2 : (s.im 2 && s.ip 2) = false := handf _ _ (hall 2 (by omega))
    have hred : interruptCheck s = takeVectored s := by
      unfold interruptCheck
      rw [hie, hrep, h0, h1, h2, hvim, hvip]
      rfl
    rw [hred]
    exact takeVectored_spec s hb

/-- Claim C2 (witness): interrupt 1 pending and masked-in on a concrete
state; the cycle ends with `pc = 0x000E`, `ip[1]` cleared and `ie`
cleared. -/
theorem teakra_C2_witness :
    ∃ s2, interruptCheck wC2 = .ok s2 ∧
      s2.pc = 0x0006 + 8 * 1 ∧ s2.ip 1 = false ∧ s2.ie = false ∧
      s2.sp = (PushPC wC2).sp ∧ s2.dataMem = (PushPC wC2).dataMem ∧
      s2.vip = wC2.vip :=
  (teakra_C2 wC2 rfl rfl).1 1 (by decide) rfl rfl
    (by
      intro j hj
      interval_cases j
      decide)
    (by decide)


theorem bind_ok {α β : Type} (x : Except Fatal α) (f : α → Except Fatal β) (b : β)
    (h : Except.bind x f = .ok b) : ∃ a, x = .ok a ∧ f a = .ok b := by
  cases x
  · exact absurd h (by simp [Except.bind])
  · exact ⟨_, rfl, h⟩

theorem Inv_of_fields (s t : State) (ha0 : t.a0 = s.a0) (ha1 : t.a1 = s.a1)
    (hb0 : t.b0 = s.b0) (hb1 : t.b1 = s.b1) (hbcn : t.bcn = s.bcn)
    (hlp : t.lp = s.lp) (h : Inv s) : Inv t := by
  rcases h with ⟨h1, h2, h3, h4, h5, h6⟩
  refine ⟨?_, ?_, ?_, ?_, ?_, ?_⟩
  · rw [ha0]
    exact h1
  · rw [ha1]
    exact h2
  · rw [hb0]
    exact h3
  · rw [hb1]
    exact h4
  · rw [hbcn]
    exact h5
  · rw [hbcn, hlp]
    exact h6

theorem Inv_getAcc (name : Acc) (s : State) (h : Inv s) : Sext40 (GetAcc name s) := by
  rcases h with ⟨h1, h2, h3, h4, _, _⟩
  cases name
  · exact h1
  · exact h2
  · exact h3
  · exact h4

theorem AddSub_inv (a b : Nat) (sub : Bool) (s : State) (h : Inv s) :
    Inv (AddSub a b sub s).2 := h

theorem AddSub_sext (a b : Nat) (sub : Bool) (s : State) :
    Sext40 (AddSub a b sub s).1 :=
  Sext40_SignExtend _

theorem SetAccFlag_inv (v : Nat) (t s2 : State) (h : SetAccFlag v t = .ok s2)
    (hinv : Inv t) : Inv s2 := by
  unfold SetAccFlag at h
  split at h
  · exact absurd h (by simp)
  · injection h with h2
    rw [← h2]
    exact hinv

theorem SaturateAcc_cases (v : Nat) (st : Bool) (s : State) :
    SaturateAcc v st s = (v, s) ∨
    SaturateAcc v st s = (0xFFFFFFFF80000000, {s with fls := true}) ∨
    SaturateAcc v st s = (0x000000007FFFFFFF, {s with fls := true}) := by
  unfold SaturateAcc SaturateAcc_Unconditional
  split
  · split
    · split
      · right
        left
        rfl
      · right
        right
        rfl
    · left
      rfl
  · left
    rfl

theorem SetAcc_Simple_inv (name : Acc) (v : Nat) (s : State) (hv : Sext40 v)
    (h : Inv s) : Inv (SetAcc_Simple name v s) := by
  rcases h with ⟨h1, h2, h3, h4, h5, h6⟩
  cases name
  · exact ⟨hv, h2, h3, h4, h5, h6⟩
  · exact ⟨h1, hv, h3, h4, h5, h6⟩
  · exact ⟨h1, h2, hv, h4, h5, h6⟩
  · exact ⟨h1, h2, h3, hv, h5, h6⟩

theorem SetAcc_inv (name : Acc) (v : Nat) (ns : Bool) (s s2 : State)
    (h : SetAcc name v ns s = .ok s2) (hinv : Inv s) : Inv s2 := by
  by_cases hch : v ≠ SignExtend 64 40 v
  · have herr : SetAcc name v ns s = .error .accCheck := by
      show Except.bind (SetAccFlag v s) _ = _
      unfold SetAccFlag
      rw [if_pos hch]
      rfl
    rw [herr] at h
    exact absurd h (by simp)
  · rw [not_not] at hch
    have hflag : SetAccFlag v s = .ok (applyAccFlag v s) := SetAccFlag_ok v s hch
    have hred : SetAcc name v ns s =
        (if !ns then
          (fun p : Nat × State => Except.ok (SetAcc_Simple name p.1 p.2))
            (SaturateAcc v true (applyAccFlag v s))
        else .ok (SetAcc_Simple name v (applyAccFlag v s))) := by
      show Except.bind (SetAccFlag v s) _ = _
      rw [hflag]
      cases ns
      · rfl
      · rfl
    rw [hred] at h
    have hinv2 : Inv (applyAccFlag v s) := hinv
    cases ns
    · rcases SaturateAcc_cases v true (applyAccFlag v s) with hc | hc | hc <;>
        rw [hc] at h <;> simp only [Bool.not_false, if_pos] at h <;>
          injection h with h2 <;> rw [← h2]
      · exact SetAcc_Simple_inv name v _ hch hinv2
      · exact SetAcc_Simple_inv name _ _ (by decide) hinv2
      · exact SetAcc_Simple_inv name _ _ (by decide) hinv2
    · simp only [Bool.not_true, Bool.false_eq_true, if_false] at h
      injection h with h2
      rw [← h2]
      exact SetAcc_Simple_inv name v _ hch hinv2

theorem DoMultiplication_fields (u : Nat) (xs ys : Bool) (s : State) :
    (DoMultiplication u xs ys s).a0 = s.a0 ∧ (DoMultiplication u xs ys s).a1 = s.a1 ∧
    (DoMultiplication u xs ys s).b0 = s.b0 ∧ (DoMultiplication u xs ys s).b1 = s.b1 ∧
    (DoMultiplication u xs ys s).bcn = s.bcn ∧ (DoMultiplication u xs ys s).lp = s.lp := by
  unfold DoMultiplication setP setPsign
  by_cases hu : u = 0
  · rw [if_pos hu, if_pos hu]
    exact ⟨rfl, rfl, rfl, rfl, rfl, rfl⟩
  · rw [if_neg hu, if_neg hu]
    exact ⟨rfl, rfl, rfl, rfl, rfl, rfl⟩

theorem mask00FF_bits (i : Nat) (h39 : 39 ≤ i) (h64 : i < 64) :
    (0xFFFFFFFFFFFF00FF : Nat).testBit i = true := by
  have hd : (0xFFFFFFFFFFFF00FF : Nat) = 0xFF + 2 ^ 16 * 0xFFFFFFFFFFFF := by norm_num
  rw [hd, testBit_add_mul_two_pow 0xFF 16 _ i (by norm_num), if_neg (by omega)]
  have hK : (0xFFFFFFFFFFFF : Nat) = 2 ^ 48 - 1 := by norm_num
  rw [hK, Nat.testBit_two_pow_sub_one]
  simp only [decide_eq_true_eq]
  omega

theorem AlmGeneric_inv (op : AlmOp) (a : Nat) (b : Ax) (s s2 : State)
    (h : AlmGeneric op a b s = .ok s2) (hinv : Inv s) : Inv s2 := by
  cases op
  case Or =>
    have heq : AlmGeneric .Or a b s =
        SetAcc_NoSaturation b.acc (SignExtend 64 40 (GetAcc b.acc s ||| a)) s := rfl
    rw [heq] at h
    exact SetAcc_inv b.acc _ true s s2 h hinv
  case And =>
    have heq : AlmGeneric .And a b s =
        SetAcc_NoSaturation b.acc (SignExtend 64 40 (GetAcc b.acc s &&& a)) s := rfl
    rw [heq] at h
    exact SetAcc_inv b.acc _ true s s2 h hinv
  case Xor =>
    have heq : AlmGeneric .Xor a b s =
        SetAcc_NoSaturation b.acc (SignExtend 64 40 (GetAcc b.acc s ^^^ a)) s := rfl
    rw [heq] at h
    exact SetAcc_inv b.acc _ true s s2 h hinv
  case Tst0 =>
    have heq : AlmGeneric .Tst0 a b s =
        .ok {s with fz := (GetAcc b.acc s &&& 0xFFFF) &&& a == 0} := rfl
    rw [heq] at h
    injection h with h2
    rw [← h2]
    exact hinv
  case Tst1 =>
    have heq : AlmGeneric .Tst1 a b s =
        .ok {s with fz := (GetAcc b.acc s &&& 0xFFFF) &&& (a ^^^ (2 ^ 64 - 1)) == 0} := rfl
    rw [heq] at h
    injection h with h2
    rw [← h2]
    exact hinv
  case Cmp =>
    have heq : AlmGeneric .Cmp a b s =
        SetAccFlag (AddSub (GetAcc b.acc s) a true s).1 (AddSub (GetAcc b.acc s) a true s).2 :=
      rfl
    rw [heq] at h
    exact SetAccFlag_inv _ _ _ h (AddSub_inv _ _ _ _ hinv)
  case Cmpu =>
    have heq : AlmGeneric .Cmpu a b s =
        SetAccFlag (AddSub (GetAcc b.acc s) a true s).1 (AddSub (GetAcc b.acc s) a true s).2 :=
      rfl
    rw [heq] at h
    exact SetAccFlag_inv _ _ _ h (AddSub_inv _ _ _ _ hinv)
  case Sub =>
    have heq : AlmGeneric .Sub a b s =
        SetAcc b.acc (AddSub (GetAcc b.acc s) a true s).1 false
          (AddSub (GetAcc b.acc s) a true s).2 := rfl
    rw [heq] at h
    exact SetAcc_inv _ _ _ _ _ h (AddSub_inv _ _ _ _ hinv)
  case Subl =>
    have heq : AlmGeneric .Subl a b s =
        SetAcc b.acc (AddSub (GetAcc b.acc s) a true s).1 false
          (AddSub (GetAcc b.acc s) a true s).2 := rfl
    rw [heq] at h
    exact SetAcc_inv _ _ _ _ _ h (AddSub_inv _ _ _ _ hinv)
  case Subh =>
    have heq : AlmGeneric .Subh a b s =
        SetAcc b.acc (AddSub (GetAcc b.acc s) a true s).1 false
          (AddSub (GetAcc b.acc s) a true s).2 := rfl
    rw [heq] at h
    exact SetAcc_inv _ _ _ _ _ h (AddSub_inv _ _ _ _ hinv)
  case Add =>
    have heq : AlmGeneric .Add a b s =
        SetAcc b.acc (AddSub (GetAcc b.acc s) a false s).1 false
          (AddSub (GetAcc b.acc s) a false s).2 := rfl
    rw [heq] at h
    exact SetAcc_inv _ _ _ _ _ h (AddSub_inv _ _ _ _ hinv)
  case Addl =>
    have heq : AlmGeneric .Addl a b s =
        SetAcc b.acc (AddSub (GetAcc b.acc s) a false s).1 false
          (AddSub (GetAcc b.acc s) a false s).2 := rfl
    rw [heq] at h
    exact SetAcc_inv _ _ _ _ _ h (AddSub_inv _ _ _ _ hinv)
  case Addh =>
    have heq : AlmGeneric .Addh a b s =
        SetAcc b.acc (AddSub (GetAcc b.acc s) a false s).1 false
          (AddSub (GetAcc b.acc s) a false s).2 := rfl
    rw [heq] at h
    exact SetAcc_inv _ _ _ _ _ h (AddSub_inv _ _ _ _ hinv)
  case Msu =>
    have heq : AlmGeneric .Msu a b s =
        Except.bind
          (SetAcc b.acc (AddSub (GetAcc b.acc s) (ProductToBus40 0 s) true s).1 false
            (AddSub (GetAcc b.acc s) (ProductToBus40 0 s) true s).2)
          (fun t => .ok (DoMultiplication 0 true true {t with x0 := a &&& 0xFFFF})) := rfl
    rw [heq] at h
    rcases bind_ok _ _ _ h with ⟨t, hset, hrest⟩
    injection hrest with h2
    have hit : Inv t := SetAcc_inv _ _ _ _ _ hset (AddSub_inv _ _ _ _ hinv)
    rcases DoMultiplication_fields 0 true true {t with x0 := a &&& 0xFFFF} with
      ⟨f1, f2, f3, f4, f5, f6⟩
    rw [← h2]
    exact Inv_of_fields t _ f1 f2 f3 f4 f5 f6 hit
  case Sqra =>
    have heq : AlmGeneric .Sqra a b s =
        Except.bind
          (SetAcc b.acc (AddSub (GetAcc b.acc s) (ProductToBus40 0 s) false s).1 false
            (AddSub (GetAcc b.acc s) (ProductToBus40 0 s) false s).2)
          (fun t => .ok (DoMultiplication 0 true true
            {t with y0 := a &&& 0xFFFF, x0 := a &&& 0xFFFF})) := rfl
    rw [heq] at h
    rcases bind_ok _ _ _ h with ⟨t, hset, hrest⟩
    injection hrest with h2
    have hit : Inv t := SetAcc_inv _ _ _ _ _ hset (AddSub_inv _ _ _ _ hinv)
    rcases DoMultiplication_fields 0 true true
        {t with y0 := a &&& 0xFFFF, x0 := a &&& 0xFFFF} with ⟨f1, f2, f3, f4, f5, f6⟩
    rw [← h2]
    exact Inv_of_fields t _ f1 f2 f3 f4 f5 f6 hit
  case Sqr =>
    have heq : AlmGeneric .Sqr a b s =
        .ok (DoMultiplication 0 true true
          {s with y0 := a &&& 0xFFFF, x0 := a &&& 0xFFFF}) := rfl
    rw [heq] at h
    injection h with h2
    rcases DoMultiplication_fields 0 true true
        {s with y0 := a &&& 0xFFFF, x0 := a &&& 0xFFFF} with ⟨f1, f2, f3, f4, f5, f6⟩
    rw [← h2]
    exact Inv_of_fields s _ f1 f2 f3 f4 f5 f6 hinv

theorem ContextStore_inv (s s2 : State) (h : ContextStore s = .ok s2)
    (hinv : Inv s) : Inv s2 := by
  rcases hinv with ⟨h1, h2, h3, h4, h5, h6⟩
  rcases ContextStore_fields s h4 with
    ⟨t, hok, _, _, _, _, _, _, _, hlp, hbcn, _, ha0, ha1, hb0, hb1⟩
  rw [hok] at h
  injection h with heq
  rw [← heq]
  refine ⟨?_, ?_, ?_, ?_, ?_, ?_⟩
  · rw [ha0]
    exact h1
  · rw [ha1]
    exact h4
  · rw [hb0]
    exact h3
  · rw [hb1]
    exact h2
  · rw [hbcn]
    exact h5
  · rw [hbcn, hlp]
    exact h6

theorem takeRegular_inv (i vec : Nat) (s s2 : State)
    (h : takeRegular i vec s = .ok s2) (hinv : Inv s) : Inv s2 := by
  set X : State := {PushPC (clearIp i s) with pc := vec} with hX
  rcases PushPC_fields (clearIp i s) with
    ⟨_, _, _, _, _, hlp, hbcn, _, ha0, ha1, hb0, hb1, _, _, _, _⟩
  have hXinv : Inv X := by
    refine Inv_of_fields s X ?_ ?_ ?_ ?_ ?_ ?_ hinv
    · exact ha0
    · exact ha1
    · exact hb0
    · exact hb1
    · exact hbcn
    · exact hlp
  have hbody : takeRegular i vec s = (if X.ic i then ContextStore X else .ok X) := rfl
  rw [hbody] at h
  split at h
  · exact ContextStore_inv X s2 h hXinv
  · injection h with heq
    rw [← heq]
    exact hXinv

theorem takeVectored_inv (s s2 : State)
    (h : takeVectored s = .ok s2) (hinv : Inv s) : Inv s2 := by
  set X : State := {PushPC (clearVip s) with pc := (PushPC (clearVip s)).viaddr} with hX
  rcases PushPC_fields (clearVip s) with
    ⟨_, _, _, _, _, hlp, hbcn, _, ha0, ha1, hb0, hb1, _, _, _, _⟩
  have hXinv : Inv X := by
    refine Inv_of_fields s X ?_ ?_ ?_ ?_ ?_ ?_ hinv
    · exact ha0
    · exact ha1
    · exact hb0
    · exact hb1
    · exact hbcn
    · exact hlp
  have hbody : takeVectored s = (if X.vic then ContextStore X else .ok X) := rfl
  rw [hbody] at h
  split at h
  · exact ContextStore_inv X s2 h hXinv
  · injection h with heq
    rw [← heq]
    exact hXinv

theorem interruptCheck_inv (s s2 : State) (h : interruptCheck s = .ok s2)
    (hinv : Inv s) : Inv s2 := by
  unfold interruptCheck at h
  split at h
  · split at h
    · exact takeRegular_inv _ _ _ _ h hinv
    · split at h
      · exact takeRegular_inv _ _ _ _ h hinv
      · split at h
        · exact takeRegular_inv _ _ _ _ h hinv
        · split at h
          · exact takeVectored_inv _ _ h hinv
          · injection h with heq
            rw [← heq]
            exact hinv
  · injection h with heq
    rw [← heq]
    exact hinv

theorem exec_inv (i : Instr) (e : Nat) (s s2 : State) (h : exec i e s = .ok s2)
    (hinv : Inv s) : Inv s2 := by
  cases i
  case nop =>
    injection h with heq
    rw [← heq]
    exact hinv
  case rep imm =>
    have heq : exec (.rep imm) e s = .ok {s with repc := imm, rep := true} := rfl
    rw [heq] at h
    injection h with heq2
    rw [← heq2]
    exact hinv
  case bkrep imm addr =>
    have heq : exec (.bkrep imm addr) e s =
        BlockRepeat imm (addr ||| (s.pc &&& 0x30000)) s := rfl
    rw [heq] at h
    unfold BlockRepeat at h
    split at h
    · exact absurd h (by simp)
    · rename_i hcond
      injection h with heq2
      rw [← heq2]
      rcases hinv with ⟨h1, h2, h3, h4, h5, h6⟩
      refine ⟨h1, h2, h3, h4, ?_, ?_⟩
      · show s.bcn + 1 ≤ 4
        omega
      · show true = true ↔ 0 < s.bcn + 1
        simp
  case break_ =>
    have heq : exec .break_ e s =
        (if !s.lp then .error .notInLoop
          else .ok {s with bcn := s.bcn - 1, lp := s.bcn - 1 != 0}) := rfl
    rw [heq] at h
    split at h
    · exact absurd h (by simp)
    · injection h with heq2
      rw [← heq2]
      rcases hinv with ⟨h1, h2, h3, h4, h5, h6⟩
      refine ⟨h1, h2, h3, h4, ?_, ?_⟩
      · show s.bcn - 1 ≤ 4
        omega
      · show (s.bcn - 1 != 0) = true ↔ 0 < s.bcn - 1
        simp only [bne_iff_ne, ne_eq]
        omega
  case brr addr c =>
    have heq : exec (.brr addr c) e s =
        (if conditionPass c s then
          .ok {s with pc := (s.pc + SignExtend 32 7 addr) % 2 ^ 32}
        else .ok s) := rfl
    rw [heq] at h
    split at h <;>
      (injection h with heq2
       rw [← heq2]
       exact hinv)
  case calla a =>
    have heq : exec (.calla a) e s =
        SetPC_Save (RegToBus16_Axl a (PushPC s)) (PushPC s) := rfl
    rw [heq] at h
    unfold SetPC_Save at h
    split at h
    · exact absurd h (by simp)
    · injection h with heq2
      rw [← heq2]
      rcases PushPC_fields s with
        ⟨_, _, _, _, _, hlp, hbcn, _, ha0, ha1, hb0, hb1, _, _, _, _⟩
      exact Inv_of_fields s _ ha0 ha1 hb0 hb1 hbcn hlp hinv
  case mov_pc a =>
    have heq : exec (.mov_pc a) e s =
        SetPC_Save (GetAcc a.acc s &&& 0xFFFFFFFF) s := rfl
    rw [heq] at h
    unfold SetPC_Save at h
    split at h
    · exact absurd h (by simp)
    · injection h with heq2
      rw [← heq2]
      exact hinv
  case alu_imm8 op imm b =>
    have heq : exec (.alu_imm8 op imm b) e s =
        Except.bind (AlmGeneric op (ExtendOprandForAlm op imm) b s)
          (fun t => if op = .And then
            .ok (SetAcc_Simple b.acc
              ((if op = .And then GetAcc b.acc s &&& 0xFF00 else 0) |||
                (GetAcc b.acc t &&& 0xFFFFFFFFFFFF00FF)) t)
          else .ok t) := rfl
    rw [heq] at h
    rcases bind_ok _ _ _ h with ⟨t, halm, hrest⟩
    have hit : Inv t := AlmGeneric_inv _ _ _ _ _ halm hinv
    by_cases hop : op = .And
    · rw [if_pos hop] at hrest
      injection hrest with heq2
      rw [← heq2]
      refine SetAcc_Simple_inv _ _ _ ?_ hit
      refine Sext40_lor_low _ _ ?_ ?_
      · exact Sext40_land _ _ (Inv_getAcc b.acc t hit) mask00FF_bits
      · rw [if_pos hop]
        calc GetAcc b.acc s &&& 0xFF00 ≤ 0xFF00 := Nat.and_le_right
          _ < 2 ^ 39 := by norm_num
    · rw [if_neg hop] at hrest
      injection hrest with heq2
      rw [← heq2]
      exact hit
  case alu_imm16 op b =>
    have heq : exec (.alu_imm16 op b) e s =
        AlmGeneric op (ExtendOprandForAlm op e) b s := rfl
    rw [heq] at h
    exact AlmGeneric_inv _ _ _ _ _ h hinv
  case undef opc =>
    exact absurd h (by simp [exec])

theorem repBookkeeping_inv (s : State) (h : Inv s) : Inv (repBookkeeping s) := by
  unfold repBookkeeping
  split
  · split
    · exact h
    · exact h
  · exact h

theorem bkrepBookkeeping_inv (s : State) (h : Inv s) : Inv (bkrepBookkeeping s) := by
  unfold bkrepBookkeeping
  split
  · split
    · rcases h with ⟨h1, h2, h3, h4, h5, h6⟩
      refine ⟨h1, h2, h3, h4, ?_, ?_⟩
      · show s.bcn - 1 ≤ 4
        omega
      · show (s.bcn - 1 != 0) = true ↔ 0 < s.bcn - 1
        simp only [bne_iff_ne, ne_eq]
        omega
    · exact h
  · exact h

theorem runStep_bind_inv (inst : Instr) (expand : Nat) (sX s2 : State)
    (ev : Event) (instrAddr : Nat)
    (h : Except.bind (exec inst expand sX)
      (fun t => Except.bind (interruptCheck t)
        (fun u => Except.ok (u, (instrAddr, inst, expand)))) = .ok (s2, ev))
    (hinv : Inv sX) : Inv s2 := by
  rcases bind_ok _ _ _ h with ⟨t, hexec, hrest⟩
  rcases bind_ok _ _ _ hrest with ⟨u, hic, hfin⟩
  injection hfin with heq
  injection heq with heq2 _
  rw [← heq2]
  exact interruptCheck_inv _ _ hic (exec_inv _ _ _ _ hexec hinv)

theorem runStep_inv (m : Machine) (s s2 : State) (ev : Event)
    (h : runStep m s = .ok (s2, ev)) (hinv : Inv s) : Inv s2 := by
  by_cases hexp : needExpansion (m.decode (progRead m s.pc)) = true
  · have h2 : Except.bind
        (exec (m.decode (progRead m s.pc)) (progRead m ((s.pc + 1) % 2 ^ 32))
          (bkrepBookkeeping (repBookkeeping
            {s with pc := ((s.pc + 1) % 2 ^ 32 + 1) % 2 ^ 32})))
        (fun t => Except.bind (interruptCheck t)
          (fun u => Except.ok (u, (s.pc, m.decode (progRead m s.pc),
            progRead m ((s.pc + 1) % 2 ^ 32))))) = .ok (s2, ev) := by
      rw [← h]
      show _ = runStep m s
      unfold runStep
      dsimp only []
      rw [hexp]
      rfl
    exact runStep_bind_inv _ _ _ _ _ _ h2
      (bkrepBookkeeping_inv _ (repBookkeeping_inv _ hinv))
  · have h2 : Except.bind
        (exec (m.decode (progRead m s.pc)) 0
          (bkrepBookkeeping (repBookkeeping {s with pc := (s.pc + 1) % 2 ^ 32})))
        (fun t => Except.bind (interruptCheck t)
          (fun u => Except.ok (u, (s.pc, m.decode (progRead m s.pc), 0)))) =
        .ok (s2, ev) := by
      rw [← h]
      show _ = runStep m s
      unfold runStep
      dsimp only []
      rw [Bool.not_eq_true] at hexp
      rw [hexp]
      rfl
    exact runStep_bind_inv _ _ _ _ _ _ h2
      (bkrepBookkeeping_inv _ (repBookkeeping_inv _ hinv))

/-- Claim C1: the universal state invariant — every accumulator equal to
its 40-bit sign extension, `bcn ∈ [0..4]`, and `lp ⇔ bcn > 0` — holds in
every state reachable by running the machine from a state satisfying it:
each fetch, bookkeeping stage, instruction handler and interrupt
acceptance preserves it. -/
theorem teakra_C1 (m : Machine) (n : Nat) (s s2 : State) (tr : List Event)
    (hinv : Inv s) (h : run m n s = .ok (s2, tr)) : Inv s2 := by
  induction n generalizing s s2 tr
  case zero =>
    unfold run at h
    injection h with heq
    injection heq with heq2 _
    rw [← heq2]
    exact hinv
  case succ n ih =>
    unfold run at h
    rcases bind_ok _ _ _ h with ⟨⟨t, ev⟩, hstep, hrest⟩
    rcases bind_ok _ _ _ hrest with ⟨⟨u, tr2⟩, hrun, hfin⟩
    injection hfin with heq
    injection heq with heq2 _
    rw [← heq2]
    exact ih t u tr2 (runStep_inv m s t ev hstep hinv) hrun

/-- Claim C1 (witness): the invariant holds of the blank state and of the
state after one cycle of the all-`nop` program. -/
theorem teakra_C1_witness : Inv blankState ∧ Inv afterNop :=
  ⟨by decide, teakra_C1 mNop 1 blankState afterNop [(0, .nop, 0)] (by decide) rfl⟩

theorem bind_ok_reduce {α β : Type} (a : α) (f : α → Except Fatal β) :
    Except.bind (Except.ok a) f = f a := rfl

theorem runStep_oneword (m : Machine) (s : State) (inst : Instr)
    (hdec : m.decode (progRead m s.pc) = inst)
    (h1w : needExpansion inst = false) :
    runStep m s = Except.bind
      (exec inst 0 (bkrepBookkeeping (repBookkeeping
        {s with pc := (s.pc + 1) % 2 ^ 32})))
      (fun t => Except.bind (interruptCheck t)
        (fun u => .ok (u, (s.pc, inst, 0)))) := by
  unfold runStep
  dsimp only []
  rw [hdec, h1w]
  rfl

theorem repBookkeeping_norep (s : State) (h : s.rep = false) :
    repBookkeeping s = s := by
  unfold repBookkeeping
  rw [h]
  rfl

theorem repBookkeeping_zero (s : State) (h : s.rep = true) (h0 : s.repc = 0) :
    repBookkeeping s = {s with rep := false} := by
  unfold repBookkeeping
  rw [h, h0]
  rfl

theorem repBookkeeping_succ (s : State) (h : s.rep = true) (h0 : s.repc ≠ 0) :
    repBookkeeping s =
      {s with repc := s.repc - 1, pc := (s.pc + 2 ^ 32 - 1) % 2 ^ 32} := by
  unfold repBookkeeping
  rw [h, if_pos rfl, if_neg h0]

theorem bkrepBookkeeping_nolp (s : State) (h : s.lp = false) :
    bkrepBookkeeping s = s := by
  unfold bkrepBookkeeping
  rw [h]
  rfl

theorem interruptCheck_noie (s : State) (h : s.ie = false) :
    interruptCheck s = .ok s := by
  unfold interruptCheck
  rw [h]
  rfl

theorem runStep_repInstr (m : Machine) (s : State) (k : Nat)
    (hdec : m.decode (progRead m s.pc) = .rep k)
    (hie : s.ie = false) (hlp : s.lp = false) (hrep : s.rep = false)
    (hpc : s.pc + 1 < 2 ^ 32) :
    ∃ t, runStep m s = .ok (t, (s.pc, .rep k, 0)) ∧ t.pc = s.pc + 1 ∧
      t.rep = true ∧ t.repc = k ∧ t.lp = false ∧ t.ie = false := by
  have hstep := runStep_oneword m s (.rep k) hdec rfl
  rw [repBookkeeping_norep _ (show ({s with pc := (s.pc + 1) % 2 ^ 32} : State).rep = false
      from hrep)] at hstep
  rw [bkrepBookkeeping_nolp _ (show ({s with pc := (s.pc + 1) % 2 ^ 32} : State).lp = false
      from hlp)] at hstep
  rw [show exec (.rep k) 0 ({s with pc := (s.pc + 1) % 2 ^ 32} : State) =
      .ok {s with pc := (s.pc + 1) % 2 ^ 32, repc := k, rep := true} from rfl] at hstep
  simp only [bind_ok_reduce] at hstep
  rw [interruptCheck_noie _ (show ({s with pc := (s.pc + 1) % 2 ^ 32, repc := k, rep := true} : State).ie = false from hie)] at hstep
  simp only [bind_ok_reduce] at hstep
  refine ⟨_, hstep, ?_, rfl, rfl, hlp, hie⟩
  show (s.pc + 1) % 2 ^ 32 = s.pc + 1
  exact Nat.mod_eq_of_lt hpc

theorem runStep_cases (m : Machine) (s : State) (inst : Instr)
    (hdec : m.decode (progRead m s.pc) = inst) (h1w : needExpansion inst = false)
    (hie : s.ie = false) (hlp : s.lp = false) (hpc : s.pc + 1 < 2 ^ 32)
    (hinst : ∀ t : State, ∃ t2, exec inst 0 t = .ok t2 ∧ t2.pc = t.pc ∧
      t2.rep = t.rep ∧ t2.repc = t.repc ∧ t2.lp = t.lp ∧ t2.ie = t.ie) :
    (s.rep = true → s.repc = 0 →
      ∃ t, runStep m s = .ok (t, (s.pc, inst, 0)) ∧ t.pc = s.pc + 1 ∧
        t.rep = false ∧ t.lp = false ∧ t.ie = false) ∧
    (s.rep = true → s.repc ≠ 0 →
      ∃ t, runStep m s = .ok (t, (s.pc, inst, 0)) ∧ t.pc = s.pc ∧
        t.rep = true ∧ t.repc = s.repc - 1 ∧ t.lp = false ∧ t.ie = false) := by
  have hstep := runStep_oneword m s inst hdec h1w
  constructor
  · intro hrep hrepc
    rw [repBookkeeping_zero _ (show ({s with pc := (s.pc + 1) % 2 ^ 32} : State).rep = true
        from hrep) (show ({s with pc := (s.pc + 1) % 2 ^ 32} : State).repc = 0
        from hrepc)] at hstep
    rw [bkrepBookkeeping_nolp _ (show ({s with pc := (s.pc + 1) % 2 ^ 32, rep := false} : State).lp = false from hlp)] at hstep
    rcases hinst {s with pc := (s.pc + 1) % 2 ^ 32, rep := false} with
      ⟨t2, hexec, hf1, hf2, hf3, hf4, hf5⟩
    rw [hexec] at hstep
    simp only [bind_ok_reduce] at hstep
    rw [interruptCheck_noie t2 (by rw [hf5]; exact hie)] at hstep
    simp only [bind_ok_reduce] at hstep
    refine ⟨t2, hstep, ?_, ?_, ?_, ?_⟩
    · rw [hf1]
      show (s.pc + 1) % 2 ^ 32 = s.pc + 1
      exact Nat.mod_eq_of_lt hpc
    · rw [hf2]
    · rw [hf4]
      exact hlp
    · rw [hf5]
      exact hie
  · intro hrep hrepc
    rw [repBookkeeping_succ _ (show ({s with pc := (s.pc + 1) % 2 ^ 32} : State).rep = true
        from hrep) (show ({s with pc := (s.pc + 1) % 2 ^ 32} : State).repc ≠ 0
        from hrepc)] at hstep
    rw [bkrepBookkeeping_nolp _ (show ({s with repc := s.repc - 1, pc := ((s.pc + 1) % 2 ^ 32 + 2 ^ 32 - 1) % 2 ^ 32} : State).lp = false from hlp)] at hstep
    rcases hinst {s with repc := s.repc - 1, pc := ((s.pc + 1) % 2 ^ 32 + 2 ^ 32 - 1) % 2 ^ 32} with
      ⟨t2, hexec, hf1, hf2, hf3, hf4, hf5⟩
    rw [hexec] at hstep
    simp only [bind_ok_reduce] at hstep
    rw [interruptCheck_noie t2 (by rw [hf5]; exact hie)] at hstep
    simp only [bind_ok_reduce] at hstep
    refine ⟨t2, hstep, ?_, ?_, ?_, ?_, ?_⟩
    · rw [hf1]
      show ((s.pc + 1) % 2 ^ 32 + 2 ^ 32 - 1) % 2 ^ 32 = s.pc
      have h1 : (s.pc + 1) % 2 ^ 32 = s.pc + 1 := Nat.mod_eq_of_lt hpc
      rw [h1]
      omega
    · rw [hf2]
      exact hrep
    · rw [hf3]
    · rw [hf4]
      exact hlp
    · rw [hf5]
      exact hie

theorem run_succ_shift (m : Machine) (n : Nat) (s : State) :
    run m (n + 1) s = Except.bind (runStep m s) (fun p =>
      Except.bind (run m n p.1) (fun q => .ok (q.1, p.2 :: q.2))) := rfl

theorem rep_loop (m : Machine) (inst : Instr)
    (h1w : needExpansion inst = false)
    (hinst : ∀ t : State, ∃ t2, exec inst 0 t = .ok t2 ∧ t2.pc = t.pc ∧
      t2.rep = t.rep ∧ t2.repc = t.repc ∧ t2.lp = t.lp ∧ t2.ie = t.ie) :
    ∀ j (s : State), s.pc + 1 < 2 ^ 32 →
      m.decode (progRead m s.pc) = inst →
      s.rep = true → s.repc = j → s.lp = false → s.ie = false →
      ∃ s2 tr, run m (j + 1) s = .ok (s2, tr) ∧
        tr = List.replicate (j + 1) (s.pc, inst, 0) ∧
        s2.rep = false ∧ s2.pc = s.pc + 1 := by
  intro j
  induction j with
  | zero =>
    intro s hpc hdec hrep hrepc hlp hie
    rcases (runStep_cases m s inst hdec h1w hie hlp hpc hinst).1 hrep hrepc with
      ⟨t, hstep, htpc, htrep, htlp, htie⟩
    refine ⟨t, [(s.pc, inst, 0)], ?_, rfl, htrep, htpc⟩
    rw [run_succ_shift, hstep]
    simp only [bind_ok_reduce]
    rw [show run m 0 t = .ok (t, []) from rfl]
    rfl
  | succ j ih =>
    intro s hpc hdec hrep hrepc hlp hie
    rcases (runStep_cases m s inst hdec h1w hie hlp hpc hinst).2 hrep
        (by omega) with ⟨t, hstep, htpc, htrep, htrepc, htlp, htie⟩
    rcases ih t (by rw [htpc]; exact hpc) (by rw [htpc]; exact hdec) htrep
        (by rw [htrepc, hrepc]; omega) htlp htie with ⟨s2, tr, hrun, htr, hrep2, hpc2⟩
    refine ⟨s2, (s.pc, inst, 0) :: tr, ?_, ?_, hrep2, ?_⟩
    · rw [run_succ_shift, hstep]
      simp only [bind_ok_reduce]
      rw [hrun]
      rfl
    · rw [htr, htpc]
      rfl
    · rw [hpc2, htpc]

/-- Claim C3 (counterexample): `rep 1` followed by a two-word instruction
at address 1 (expansion word at address 2): the repeat rewinds PC by one
word only, so the instruction at address 1 executes once, not
`k + 1 = 2` times — the second iteration decodes the expansion word at
address 2 as an opcode instead. -/
theorem teakra_C3_counterexample :
    (run mc3 3 blankState).map
        (fun p => (p.2.filter (fun e => e.1 == 1)).length) = .ok 1 ∧
    (1 : Nat) ≠ 2 := by
  constructor
  · rfl
  · decide

/-- Claim C3 (amended): for every count `k < 2^16` and every ONE-WORD
instruction INST whose handler always succeeds and leaves `pc`, `rep`,
`repc`, `lp` and `ie` unchanged, executing `rep k` at `P` followed by
INST at `P + 1` under `Run` executes INST exactly `k + 1` times, each
time with the same decoded form (the same decoded instruction, expansion
word 0), after which `rep` is clear and PC rests at `P + 2`, just past
INST.  A two-word INST is not repeated this way: the repeat bookkeeping
rewinds `pc` by one word only, so from the second iteration on the
expansion word is fetched and decoded as an opcode (see the
counterexample). -/
theorem teakra_C3 (m : Machine) (P k : Nat) (inst : Instr)
    (hP : P + 2 < 2 ^ 32) (hk : k < 2 ^ 16)
    (hdec0 : m.decode (progRead m P) = .rep k)
    (hdec1 : m.decode (progRead m (P + 1)) = inst)
    (h1w : needExpansion inst = false)
    (hinst : ∀ t : State, ∃ t2, exec inst 0 t = .ok t2 ∧ t2.pc = t.pc ∧
      t2.rep = t.rep ∧ t2.repc = t.repc ∧ t2.lp = t.lp ∧ t2.ie = t.ie)
    (s : State) (hpc : s.pc = P) (hrep : s.rep = false) (hlp : s.lp = false)
    (hie : s.ie = false) :
    ∃ s2 tr, run m (k + 2) s = .ok (s2, tr) ∧
      tr = (P, .rep k, 0) :: List.replicate (k + 1) (P + 1, inst, 0) ∧
      s2.rep = false ∧ s2.pc = P + 2 := by
  rcases runStep_repInstr m s k (by rw [hpc]; exact hdec0) hie hlp hrep
      (by omega) with ⟨t, hstep, htpc, htrep, htrepc, htlp, htie⟩
  rcases rep_loop m inst h1w hinst k t (by rw [htpc, hpc]; omega)
      (by rw [htpc, hpc]; exact hdec1) htrep htrepc htlp htie with
    ⟨s2, tr, hrun, htr, hrep2, hpc2⟩
  refine ⟨s2, (s.pc, .rep k, 0) :: tr, ?_, ?_, hrep2, ?_⟩
  · show run m (k + 1 + 1) s = _
    rw [run_succ_shift, hstep]
    simp only [bind_ok_reduce]
    rw [hrun]
    rfl
  · rw [htr, htpc, hpc]
  · rw [hpc2, htpc, hpc]

/-- Claim C3 (witness): `rep 3; nop` from the blank state — `nop`
executes four times, `rep` ends clear, PC ends at 2. -/
theorem teakra_C3_witness :
    ∃ s2 tr, run mw3 5 blankState = .ok (s2, tr) ∧
      tr = (0, .rep 3, 0) :: List.replicate 4 (1, .nop, 0) ∧
      s2.rep = false ∧ s2.pc = 2 :=
  teakra_C3 mw3 0 3 .nop (by decide) (by decide) (by decide) (by decide) rfl
    (fun t => ⟨t, rfl, rfl, rfl, rfl, rfl, rfl⟩) blankState rfl rfl rfl rfl

theorem smearMask_pow (k : Nat) : smearMask (2 ^ k - 1) = 2 ^ k - 1 := by
  have hunfold : smearMask (2 ^ k - 1) =
      ((((((((0 ||| (2 ^ k - 1)) ||| ((2 ^ k - 1) >>> 1)) ||| ((2 ^ k - 1) >>> 2)) |||
        ((2 ^ k - 1) >>> 3)) ||| ((2 ^ k - 1) >>> 4)) ||| ((2 ^ k - 1) >>> 5)) |||
        ((2 ^ k - 1) >>> 6)) ||| ((2 ^ k - 1) >>> 7)) ||| ((2 ^ k - 1) >>> 8) := rfl
  rw [hunfold]
  apply Nat.eq_of_testBit_eq
  intro i
  simp only [Nat.testBit_or, Nat.testBit_shiftRight, Nat.testBit_two_pow_sub_one,
    Nat.zero_or]
  by_cases h : i < k
  · simp [h]
  · have h1 : ¬ (1 + i < k) := by omega
    have h2 : ¬ (2 + i < k) := by omega
    have h3 : ¬ (3 + i < k) := by omega
    have h4 : ¬ (4 + i < k) := by omega
    have h5 : ¬ (5 + i < k) := by omega
    have h6 : ¬ (6 + i < k) := by omega
    have h7 : ¬ (7 + i < k) := by omega
    have h8 : ¬ (8 + i < k) := by omega
    simp [h, h1, h2, h3, h4, h5, h6, h7, h8]

theorem xor_mask_pow (k : Nat) (hk : k ≤ 16) :
    0xFFFF ^^^ (2 ^ k - 1) = 2 ^ k * (2 ^ (16 - k) - 1) := by
  apply Nat.eq_of_testBit_eq
  intro i
  rw [Nat.testBit_xor, testBit_mul_two_pow]
  have h16 : (0xFFFF : Nat) = 2 ^ 16 - 1 := by norm_num
  rw [h16, Nat.testBit_two_pow_sub_one, Nat.testBit_two_pow_sub_one]
  by_cases hik : i < k
  · rw [if_pos hik]
    have h16i : i < 16 := by omega
    simp [h16i, hik]
  · rw [if_neg hik, Nat.testBit_two_pow_sub_one]
    by_cases h16i : i < 16
    · have hr : i - k < 16 - k := by omega
      simp [h16i, hik, hr]
    · have hr : ¬ (i - k < 16 - k) := by omega
      simp [h16i, hik, hr]

theorem land_high_pow (k r : Nat) (hk : k ≤ 16) (hr : r < 2 ^ 16) :
    r &&& (2 ^ k * (2 ^ (16 - k) - 1)) = 2 ^ k * (r / 2 ^ k) := by
  apply Nat.eq_of_testBit_eq
  intro i
  rw [Nat.testBit_land, testBit_mul_two_pow, testBit_mul_two_pow]
  by_cases hik : i < k
  · simp [hik]
  · rw [if_neg hik, if_neg hik, Nat.testBit_two_pow_sub_one]
    have hdiv : r / 2 ^ k = r >>> k := (Nat.shiftRight_eq_div_pow r k).symm
    rw [hdiv, Nat.testBit_shiftRight, show k + (i - k) = i from by omega]
    by_cases h16 : i < 16
    · simp [show i - k < 16 - k from by omega]
    · have hfb : r.testBit i = false := Nat.testBit_lt_two_pow
        (lt_of_lt_of_le hr (Nat.pow_le_pow_right (by omega) (by omega)))
      have hr2 : ¬ (i - k < 16 - k) := by omega
      simp [hfb, hr2]

theorem lor_mul_add (k h l : Nat) (hl : l < 2 ^ k) :
    (2 ^ k * h) ||| l = 2 ^ k * h + l := by
  have hcomm : 2 ^ k * h + l = l + 2 ^ k * h := by omega
  rw [hcomm]
  apply Nat.eq_of_testBit_eq
  intro i
  rw [Nat.testBit_or, testBit_mul_two_pow, testBit_add_mul_two_pow l k h i hl]
  by_cases hik : i < k
  · simp [hik]
  · have hfb : l.testBit i = false := Nat.testBit_lt_two_pow
      (lt_of_lt_of_le hl (Nat.pow_le_pow_right (by omega) (by omega)))
    simp [hik, hfb]

theorem stepF_modStep (M r : Nat) (hM : M ≠ 0) :
    stepF M r = modStepModern M 1 r := by
  have hstep : stepF M r =
      (if M = 0 then r
       else if M = 1 ∧ (false : Bool) = true then r
       else modStepModern M 1 r) := rfl
  rw [hstep, if_neg hM, if_neg (by simp)]

theorem modStepModern_pow (k r : Nat) (hk1 : 1 ≤ k) (hk : k ≤ 16) (hr : r < 2 ^ 16) :
    modStepModern (2 ^ k - 1) 1 r = 2 ^ k * (r / 2 ^ k) + (r % 2 ^ k + 1) % 2 ^ k := by
  unfold modStepModern
  dsimp only []
  rw [smearMask_pow]
  rw [if_pos (by norm_num : (1 : Nat) < 0x8000)]
  simp only [Nat.and_pow_two_sub_one_eq_mod]
  have h2 : (2 ^ k - 1) + 1 = 2 ^ k := by
    have := Nat.two_pow_pos k
    omega
  rw [h2, Nat.mod_self]
  have hif : (if (r + 1) % 2 ^ k = 0 then 0 else (r + 1) % 2 ^ k) = (r + 1) % 2 ^ k := by
    by_cases h : (r + 1) % 2 ^ k = 0
    · simp [h]
    · simp [h]
  rw [hif, xor_mask_pow k hk, land_high_pow k r hk hr,
    lor_mul_add k (r / 2 ^ k) _ (Nat.mod_lt _ (Nat.two_pow_pos k))]
  have h1 : 1 % 2 ^ k = 1 := by
    have h2k : (2 : Nat) ^ 1 ≤ 2 ^ k := Nat.pow_le_pow_right (by omega) hk1
    exact Nat.mod_eq_of_lt (by omega)
  rw [Nat.add_mod r 1, h1]

theorem stepF_eq (k r : Nat) (hk1 : 1 ≤ k) (hk : k ≤ 16) (hr : r < 2 ^ 16) :
    stepF (2 ^ k - 1) r = 2 ^ k * (r / 2 ^ k) + (r % 2 ^ k + 1) % 2 ^ k := by
  rw [stepF_modStep (2 ^ k - 1) r
    (by have h2 : (2 : Nat) ^ 1 ≤ 2 ^ k := Nat.pow_le_pow_right (by omega) hk1; omega)]
  exact modStepModern_pow k r hk1 hk hr

theorem stepF_iter (k : Nat) (hk1 : 1 ≤ k) (hk : k ≤ 16) :
    ∀ n r, r < 2 ^ 16 →
      (stepF (2 ^ k - 1))^[n] r = 2 ^ k * (r / 2 ^ k) + (r % 2 ^ k + n) % 2 ^ k := by
  intro n
  induction n with
  | zero =>
    intro r hr
    have hlt : r % 2 ^ k < 2 ^ k := Nat.mod_lt _ (Nat.two_pow_pos k)
    rw [Function.iterate_zero_apply, Nat.add_zero, Nat.mod_eq_of_lt hlt]
    exact (Nat.div_add_mod r (2 ^ k)).symm
  | succ n ih =>
    intro r hr
    rw [Function.iterate_succ_apply, stepF_eq k r hk1 hk hr]
    have hlow : (r % 2 ^ k + 1) % 2 ^ k < 2 ^ k := Nat.mod_lt _ (Nat.two_pow_pos k)
    have hq : r / 2 ^ k < 2 ^ (16 - k) := by
      rw [Nat.div_lt_iff_lt_mul (Nat.two_pow_pos k)]
      calc r < 2 ^ 16 := hr
        _ = 2 ^ (16 - k) * 2 ^ k := by
            rw [← pow_add]
            congr 1
            omega
    have hr1 : 2 ^ k * (r / 2 ^ k) + (r % 2 ^ k + 1) % 2 ^ k < 2 ^ 16 := by
      calc 2 ^ k * (r / 2 ^ k) + (r % 2 ^ k + 1) % 2 ^ k
          < 2 ^ k * (r / 2 ^ k) + 2 ^ k := Nat.add_lt_add_left hlow _
        _ = 2 ^ k * (r / 2 ^ k + 1) := (Nat.mul_succ _ _).symm
        _ ≤ 2 ^ k * 2 ^ (16 - k) := Nat.mul_le_mul_left _ hq
        _ = 2 ^ 16 := by
            rw [← pow_add]
            congr 1
            omega
    rw [ih _ hr1]
    have hdiv : (2 ^ k * (r / 2 ^ k) + (r % 2 ^ k + 1) % 2 ^ k) / 2 ^ k = r / 2 ^ k := by
      rw [Nat.mul_add_div (Nat.two_pow_pos k), Nat.div_eq_of_lt hlow, Nat.add_zero]
    have hmod : (2 ^ k * (r / 2 ^ k) + (r % 2 ^ k + 1) % 2 ^ k) % 2 ^ k =
        (r % 2 ^ k + 1) % 2 ^ k := by
      rw [Nat.mul_add_mod, Nat.mod_eq_of_lt hlow]
    rw [hdiv, hmod, Nat.mod_add_mod]
    have harg : r % 2 ^ k + 1 + n = r % 2 ^ k + (n + 1) := by omega
    rw [harg]

/-- Claim C9 (counterexample): with `mod = 5` the smear mask is 7, but
the modern-dialect `PlusStep` orbit wraps at `mod + 1 = 6`, so iterating
`mask + 1 = 8` times from address 0 lands on 2, not back on 0: the cycle
length is not `mask + 1` for a non-contiguous `mod`. -/
theorem teakra_C9_counterexample :
    (stepF 5)^[smearMask 5 + 1] 0 = 2 ∧ (2 : Nat) ≠ 0 := by
  constructor
  · rfl
  · decide

/-- Claim C9 (amended): for a contiguous modulo value `mod = 2^k - 1`
(`k ≤ 16`), the smear mask equals `mod` itself, and the `PlusStep`
transformation of an address unit in modulo mode (`m[U] = 1`,
`brv[U] = 0`, no dmod, step 1) cycles with period `mask + 1 = 2^k`: the
low `k` bits count up modulo `2^k` while the high bits are preserved, so
`mask + 1` applications return every 16-bit address to itself.  For a
non-contiguous `mod` the modern dialect wraps at `(mod + 1) & mask` and
the orbit is shorter than `mask + 1` (see the counterexample). -/
theorem teakra_C9 (k r : Nat) (hk : k ≤ 16) (hr : r < 2 ^ 16) :
    smearMask (2 ^ k - 1) = 2 ^ k - 1 ∧
    (stepF (2 ^ k - 1))^[smearMask (2 ^ k - 1) + 1] r = r := by
  refine ⟨smearMask_pow k, ?_⟩
  rw [smearMask_pow]
  by_cases hk0 : k = 0
  · subst hk0
    norm_num
    rfl
  · have hk1 : 1 ≤ k := by omega
    have h2 : (2 ^ k - 1) + 1 = 2 ^ k := by
      have := Nat.two_pow_pos k
      omega
    rw [h2, stepF_iter k hk1 hk (2 ^ k) r hr, Nat.add_mod_right,
      Nat.mod_eq_of_lt (Nat.mod_lt _ (Nat.two_pow_pos k))]
    exact Nat.div_add_mod r (2 ^ k)

/-- Claim C9 (witness): `mod = 2^2 - 1 = 3` — the mask is 3 and the
`PlusStep` orbit of address 5 returns to 5 after `mask + 1 = 4` steps. -/
theorem teakra_C9_witness :
    smearMask (2 ^ 2 - 1) = 2 ^ 2 - 1 ∧
    (stepF (2 ^ 2 - 1))^[smearMask (2 ^ 2 - 1) + 1] 5 = 5 :=
  teakra_C9 2 5 (by decide) (by decide)

/-- Claim C10: for the 8-bit-immediate AND (`alu(And, Imm8, Ax)`), bits
8..15 of the target accumulator keep their old values while every other
bit takes the value of the AND with the zero-extended immediate (the
result is `(old & 0xFF00) | (old & imm)`), and the Z/M/E/N flags are
computed from the full AND value `old & imm` — as if bits 8..15 had been
ANDed with zero. -/
theorem teakra_C10 (imm : Nat) (b : Ax) (s : State) (him : imm < 256) :
    ∃ s2, exec (.alu_imm8 .And imm b) 0 s = .ok s2 ∧
      GetAcc b.acc s2 = (GetAcc b.acc s &&& 0xFF00) ||| (GetAcc b.acc s &&& imm) ∧
      s2.fz = (applyAccFlag (GetAcc b.acc s &&& imm) s).fz ∧
      s2.fm = (applyAccFlag (GetAcc b.acc s &&& imm) s).fm ∧
      s2.fe = (applyAccFlag (GetAcc b.acc s &&& imm) s).fe ∧
      s2.fn = (applyAccFlag (GetAcc b.acc s &&& imm) s).fn := by
  have hvlt : GetAcc b.acc s &&& imm < 256 := lt_of_le_of_lt Nat.and_le_right him
  have hse : SignExtend 64 40 (GetAcc b.acc s &&& imm) = GetAcc b.acc s &&& imm :=
    SignExtend_eq_self 64 40 _ (lt_of_lt_of_le hvlt (by norm_num))
  have hflag : SetAccFlag (GetAcc b.acc s &&& imm) s =
      .ok (applyAccFlag (GetAcc b.acc s &&& imm) s) := by
    unfold SetAccFlag
    rw [if_neg (by rw [hse]; exact fun hc => hc rfl)]
  have h2 : SetAcc_NoSaturation b.acc (GetAcc b.acc s &&& imm) s =
      .ok (SetAcc_Simple b.acc (GetAcc b.acc s &&& imm)
        (applyAccFlag (GetAcc b.acc s &&& imm) s)) := by
    show Except.bind (SetAccFlag (GetAcc b.acc s &&& imm) s) _ = _
    rw [hflag]
    rfl
  have h1 : AlmGeneric .And (ExtendOprandForAlm .And imm) b s =
      SetAcc_NoSaturation b.acc (SignExtend 64 40 (GetAcc b.acc s &&& imm)) s := rfl
  have halm : AlmGeneric .And (ExtendOprandForAlm .And imm) b s =
      .ok (SetAcc_Simple b.acc (GetAcc b.acc s &&& imm)
        (applyAccFlag (GetAcc b.acc s &&& imm) s)) := by
    rw [h1, hse, h2]
  have hexec : exec (.alu_imm8 .And imm b) 0 s =
      Except.bind (AlmGeneric .And (ExtendOprandForAlm .And imm) b s)
        (fun s2 => .ok (SetAcc_Simple b.acc
          ((GetAcc b.acc s &&& 0xFF00) ||| (GetAcc b.acc s2 &&& 0xFFFFFFFFFFFF00FF)) s2)) :=
    rfl
  refine ⟨SetAcc_Simple b.acc ((GetAcc b.acc s &&& 0xFF00) ||| (GetAcc b.acc s &&& imm))
      (SetAcc_Simple b.acc (GetAcc b.acc s &&& imm)
        (applyAccFlag (GetAcc b.acc s &&& imm) s)), ?_, ?_, ?_, ?_, ?_, ?_⟩
  · rw [hexec, halm]
    show Except.ok _ = _
    rw [GetAcc_SetAcc_Simple, land_low_byte _ hvlt]
  · rw [GetAcc_SetAcc_Simple]
  · rcases SetAcc_Simple_flags b.acc ((GetAcc b.acc s &&& 0xFF00) ||| (GetAcc b.acc s &&& imm))
        (SetAcc_Simple b.acc (GetAcc b.acc s &&& imm)
          (applyAccFlag (GetAcc b.acc s &&& imm) s)) with ⟨h1, _, _, _⟩
    rw [h1]
    exact (SetAcc_Simple_flags b.acc _ _).1
  · rcases SetAcc_Simple_flags b.acc ((GetAcc b.acc s &&& 0xFF00) ||| (GetAcc b.acc s &&& imm))
        (SetAcc_Simple b.acc (GetAcc b.acc s &&& imm)
          (applyAccFlag (GetAcc b.acc s &&& imm) s)) with ⟨_, h2, _, _⟩
    rw [h2]
    exact (SetAcc_Simple_flags b.acc _ _).2.1
  · rcases SetAcc_Simple_flags b.acc ((GetAcc b.acc s &&& 0xFF00) ||| (GetAcc b.acc s &&& imm))
        (SetAcc_Simple b.acc (GetAcc b.acc s &&& imm)
          (applyAccFlag (GetAcc b.acc s &&& imm) s)) with ⟨_, _, h3, _⟩
    rw [h3]
    exact (SetAcc_Simple_flags b.acc _ _).2.2.1
  · rcases SetAcc_Simple_flags b.acc ((GetAcc b.acc s &&& 0xFF00) ||| (GetAcc b.acc s &&& imm))
        (SetAcc_Simple b.acc (GetAcc b.acc s &&& imm)
          (applyAccFlag (GetAcc b.acc s &&& imm) s)) with ⟨_, _, _, h4⟩
    rw [h4]
    exact (SetAcc_Simple_flags b.acc _ _).2.2.2

/-- Claim C10 (witness): the AND-immediate special case applied at
`imm = 0x0F` on an accumulator holding `0x345678`. -/
theorem teakra_C10_witness :
    (0x0F : Nat) < 256 ∧
    ∃ s2, exec (.alu_imm8 .And 0x0F .a0) 0 {blankState with a0 := 0x345678} = .ok s2 ∧
      GetAcc Ax.a0.acc s2 =
        (GetAcc Ax.a0.acc {blankState with a0 := 0x345678} &&& 0xFF00) |||
          (GetAcc Ax.a0.acc {blankState with a0 := 0x345678} &&& 0x0F) ∧
      s2.fz = (applyAccFlag (GetAcc Ax.a0.acc {blankState with a0 := 0x345678} &&& 0x0F)
        {blankState with a0 := 0x345678}).fz ∧
      s2.fm = (applyAccFlag (GetAcc Ax.a0.acc {blankState with a0 := 0x345678} &&& 0x0F)
        {blankState with a0 := 0x345678}).fm ∧
      s2.fe = (applyAccFlag (GetAcc Ax.a0.acc {blankState with a0 := 0x345678} &&& 0x0F)
        {blankState with a0 := 0x345678}).fe ∧
      s2.fn = (applyAccFlag (GetAcc Ax.a0.acc {blankState with a0 := 0x345678} &&& 0x0F)
        {blankState with a0 := 0x345678}).fn :=
  ⟨by decide, teakra_C10 0x0F .a0 {blankState with a0 := 0x345678} (by decide)⟩

end Teakra
